import Mathlib

/-!
# Verification of the moltbot-inspired memory-structures repository

This file gives a shallow embedding, in Lean 4, of the markdown section-editor
and transcript/compaction subsystem of the repository, and proves (or refutes)
the frozen claims C1..C10 about it.

Embedding conventions:
* TypeScript strings are Lean `String`s; all character-level operations are
  defined on `List Char` (`String.data`) so that proofs can compute.
* A JSONL transcript file is modelled at line granularity as a `List String`
  (one element per physical line; appending `serialized + "\n"` to the file is
  pushing one element).  `JSON.stringify` / `JSON.parse` are Node builtins
  (external collaborators, like `countTokens`), so they appear as an injected
  encoder/decoder pair in `TranscriptEnv`, and theorems that depend on their
  round-tripping take that as an explicit hypothesis.
* `src/utils/markdown.ts` (`parseSections`, `appendToSection`, ...) and
  `MemoryManager.removeFact` are not part of the available sources; they are
  modelled from the specification text, and each such definition is marked
  `Modelled from the spec:` in its doc comment.
* The system clock and the UUID generator are injected as plain arguments
  (`newId`, `ts`, `timeStr`, `dateStr`).
-/

/-! ## Character / string utilities (JS semantics) -/

/-- Whitespace test modelling the characters matched by JS `\s` / `trim()`
(restricted to the ASCII range: space, tab, newline, carriage return,
vertical tab, form feed). -/
def isWsChar (c : Char) : Bool :=
  c == ' ' || c == '\t' || c == '\n' || c == '\r' ||
    c == Char.ofNat 11 || c == Char.ofNat 12

/-- Strip whitespace from both ends of a character list (JS `String.trim`). -/
def trimCh (cs : List Char) : List Char :=
  ((cs.dropWhile isWsChar).reverse.dropWhile isWsChar).reverse

/-- JS `String.prototype.trim`. -/
def jsTrim (s : String) : String :=
  String.mk (trimCh s.data)

/-- JS `String.prototype.trimEnd`. -/
def jsTrimEnd (s : String) : String :=
  String.mk ((s.data.reverse.dropWhile isWsChar).reverse)

/-- JS `String.prototype.toLowerCase` (character-wise). -/
def jsToLower (s : String) : String :=
  String.mk (s.data.map Char.toLower)

/-- Split a character list at every `'\n'` (JS `String.split('\n')`):
always returns at least one (possibly empty) piece. -/
def splitChNl : List Char → List (List Char)
  | [] => [[]]
  | c :: rest =>
    let r := splitChNl rest
    if c = '\n' then [] :: r else (c :: r.headD []) :: r.tail

/-- Join pieces with `'\n'` (JS `Array.join('\n')`). -/
def joinChNl : List (List Char) → List Char
  | [] => []
  | [x] => x
  | x :: y :: xs => x ++ '\n' :: joinChNl (y :: xs)

theorem splitChNl_ne_nil (cs : List Char) : splitChNl cs ≠ [] := by
  cases cs with
  | nil => simp [splitChNl]
  | cons c rest =>
    simp only [splitChNl]
    by_cases h : c = '\n' <;> simp [h]

theorem splitChNl_no_nl (cs : List Char) :
    ∀ p ∈ splitChNl cs, '\n' ∉ p := by
  induction cs with
  | nil => simp [splitChNl]
  | cons c rest ih =>
    simp only [splitChNl]
    by_cases h : c = '\n'
    · simp only [if_pos h]
      intro p hp
      rcases List.mem_cons.mp hp with hp | hp
      · simp [hp]
      · exact ih p hp
    · simp only [if_neg h]
      intro p hp
      rcases List.mem_cons.mp hp with hp | hp
      · subst hp
        intro hmem
        rcases List.mem_cons.mp hmem with hmem | hmem
        · exact h hmem.symm
        · rcases hr : splitChNl rest with _ | ⟨h0, t0⟩
          · exact splitChNl_ne_nil rest hr
          · exact ih h0 (by simp [hr]) (by simpa [hr] using hmem)
      · exact ih p (List.mem_of_mem_tail hp)

theorem splitChNl_of_no_nl (x : List Char) (hx : '\n' ∉ x) :
    splitChNl x = [x] := by
  induction x with
  | nil => simp [splitChNl]
  | cons c rest ih =>
    have hc : c ≠ '\n' := fun h => hx (h ▸ List.mem_cons_self c rest)
    have hrest : '\n' ∉ rest := fun h => hx (List.mem_cons_of_mem c h)
    simp [splitChNl, hc, ih hrest]

theorem splitChNl_append_nl (x cs : List Char) (hx : '\n' ∉ x) :
    splitChNl (x ++ '\n' :: cs) = x :: splitChNl cs := by
  induction x with
  | nil => simp [splitChNl]
  | cons c rest ih =>
    have hc : c ≠ '\n' := fun h => hx (h ▸ List.mem_cons_self c rest)
    have hrest : '\n' ∉ rest := fun h => hx (List.mem_cons_of_mem c h)
    simp only [List.cons_append, splitChNl, List.append_eq, ih hrest, if_neg hc,
      List.headD_cons, List.tail_cons]

theorem splitChNl_joinChNl (ls : List (List Char)) (hne : ls ≠ [])
    (hnl : ∀ l ∈ ls, '\n' ∉ l) :
    splitChNl (joinChNl ls) = ls := by
  induction ls with
  | nil => exact absurd rfl hne
  | cons x xs ih =>
    cases xs with
    | nil => simpa [joinChNl] using splitChNl_of_no_nl x (hnl x (by simp))
    | cons y ys =>
      have hx : '\n' ∉ x := hnl x (by simp)
      have : splitChNl (joinChNl (y :: ys)) = y :: ys :=
        ih (by simp) (fun l hl => hnl l (List.mem_cons_of_mem x hl))
      simp [joinChNl, splitChNl_append_nl x _ hx, this]

theorem joinChNl_splitChNl (cs : List Char) :
    joinChNl (splitChNl cs) = cs := by
  induction cs with
  | nil => simp [splitChNl, joinChNl]
  | cons c rest ih =>
    simp only [splitChNl]
    by_cases h : c = '\n'
    · subst h
      rcases hr : splitChNl rest with _ | ⟨h0, t0⟩
      · exact absurd hr (splitChNl_ne_nil rest)
      · simp only [if_pos rfl, joinChNl]
        rw [hr] at ih
        simpa [hr] using congrArg (fun l => '\n' :: l) ih
    · rcases hr : splitChNl rest with _ | ⟨h0, t0⟩
      · exact absurd hr (splitChNl_ne_nil rest)
      · rw [hr] at ih
        cases t0 with
        | nil => simp only [if_neg h, hr, joinChNl] at ih ⊢; simp [ih]
        | cons z zs =>
          simp only [if_neg h, hr, joinChNl] at ih ⊢
          simp [← ih]

/-- JS `content.split('\n')` on strings. -/
def jsSplitNl (s : String) : List String :=
  (splitChNl s.data).map String.mk

/-- JS `lines.join('\n')` on strings. -/
def jsJoinNl (ls : List String) : String :=
  String.mk (joinChNl (ls.map String.data))

/-- A string containing no physical line break. -/
def noNl (s : String) : Bool :=
  !(s.data.contains '\n')

theorem jsSplitNl_jsJoinNl (ls : List String) (hne : ls ≠ [])
    (hnl : ∀ l ∈ ls, noNl l = true) :
    jsSplitNl (jsJoinNl ls) = ls := by
  unfold jsSplitNl jsJoinNl
  have hdata : (String.mk (joinChNl (ls.map String.data))).data
      = joinChNl (ls.map String.data) := rfl
  rw [hdata, splitChNl_joinChNl (ls.map String.data)
    (by simpa using hne)
    (by
      intro l hl
      rcases List.mem_map.mp hl with ⟨s, hs, rfl⟩
      have := hnl s hs
      simp only [noNl, Bool.not_eq_true'] at this
      simpa [List.contains_eq_any_beq] using this)]
  rw [List.map_map]
  exact List.map_id'' (fun s => rfl) ls

theorem jsJoinNl_jsSplitNl (s : String) :
    jsJoinNl (jsSplitNl s) = s := by
  unfold jsSplitNl jsJoinNl
  apply String.ext
  show (joinChNl (((splitChNl s.data).map String.mk).map String.data)) = s.data
  have hmaps : ((splitChNl s.data).map String.mk).map String.data
      = splitChNl s.data := by
    rw [List.map_map]
    exact List.map_id'' (fun l => rfl) _
  rw [hmaps]
  exact joinChNl_splitChNl s.data

/-! ## Transcript (src/sessions/Transcript.ts)

A JSONL transcript file is modelled as a `List String`, one element per
physical line: the source appends `JSON.stringify(fullEntry) + '\n'` to the
file, which in this model pushes one list element. -/

/-- `TranscriptEntry.type` (src/types.ts). -/
inductive EntryType where
  | message
  | tool_call
  | tool_result
  | compaction
deriving DecidableEq, Repr

/-- `TranscriptEntry.role` (src/types.ts). -/
inductive MsgRole where
  | user
  | assistant
deriving DecidableEq, Repr

/-- The `metadata` records actually constructed by the Transcript class:
`{ toolName }` for tool calls, `{ removedEntryIds, removedCount }` for
compaction entries. -/
inductive EntryMetadata where
  | toolMeta (toolName : String)
  | compactionInfo (removedEntryIds : List String) (removedCount : Nat)
deriving DecidableEq, Repr

/-- `TranscriptEntry` (src/types.ts). -/
structure TranscriptEntry where
  id : String
  parentId : Option String
  timestamp : String
  type : EntryType
  role : Option MsgRole
  content : String
  tokenCount : Option Nat
  metadata : Option EntryMetadata
deriving DecidableEq, Repr

/-- External collaborators consumed by Transcript: the token counter
(`countTokens` from utils/tokens.ts, external tiktoken) and the JSON
line codec (`JSON.stringify` / `JSON.parse`, Node builtins). -/
structure TranscriptEnv where
  countTokens : String → Nat
  encodeEntry : TranscriptEntry → String
  decodeEntry : String → Option TranscriptEntry

/-- In-memory state of a `Transcript` object plus the backing file. -/
structure TranscriptState where
  file : List String
  entries : List TranscriptEntry
  totalTokens : Nat
  loaded : Bool
deriving Repr

/-- `entry.tokenCount || 0`. -/
def entryTokens (e : TranscriptEntry) : Nat :=
  e.tokenCount.getD 0

namespace Transcript

/-- The line loop of `load()`: for each line, if `line.trim()` is nonempty,
`JSON.parse` it and keep it, otherwise (or on parse failure) skip it. -/
def parseTranscriptLines (env : TranscriptEnv) (lines : List String) :
    List TranscriptEntry :=
  lines.filterMap (fun line =>
    if jsTrim line = "" then none else env.decodeEntry line)

/-- `load()`: no-op when already loaded; otherwise parse every line of the
file and recompute the running token total. -/
def load (env : TranscriptEnv) (st : TranscriptState) : TranscriptState :=
  if st.loaded then st
  else
    let es := parseTranscriptLines env st.file
    { st with
        entries := es
        totalTokens := (es.map entryTokens).sum
        loaded := true }

/-- `init()` on a (possibly absent, hence empty) file: ensure the file exists
then `load()`. -/
def init (env : TranscriptEnv) (file : List String) : TranscriptState :=
  load env { file := file, entries := [], totalTokens := 0, loaded := false }

/-- The argument type of `append`:
`Omit<TranscriptEntry, 'id' | 'timestamp' | 'tokenCount'>`. -/
structure EntryInput where
  parentId : Option String
  type : EntryType
  role : Option MsgRole
  content : String
  metadata : Option EntryMetadata
deriving DecidableEq, Repr

/-- The completed entry built by `append`: the input plus a fresh id, the
current timestamp and `tokenCount = countTokens(entry.content)`. -/
def mkFullEntry (env : TranscriptEnv) (input : EntryInput)
    (newId ts : String) : TranscriptEntry :=
  { id := newId
    parentId := input.parentId
    timestamp := ts
    type := input.type
    role := input.role
    content := input.content
    tokenCount := some (env.countTokens input.content)
    metadata := input.metadata }

/-- `append(entry)`: `load()` first, then write one serialized line to the end
of the file, push the entry in memory, add its tokens to the running total and
return the completed entry. -/
def append (env : TranscriptEnv) (st : TranscriptState) (input : EntryInput)
    (newId ts : String) : TranscriptEntry × TranscriptState :=
  let st1 := load env st
  let fe := mkFullEntry env input newId ts
  (fe,
    { st1 with
        file := st1.file ++ [env.encodeEntry fe]
        entries := st1.entries ++ [fe]
        totalTokens := st1.totalTokens + env.countTokens input.content })

/-- `getLastEntryId()`. -/
def getLastEntryId (st : TranscriptState) : Option String :=
  st.entries.getLast?.map (fun e => e.id)

/-- `addUserMessage(content, parentId)`: parent defaults to the current last
entry id. -/
def addUserMessage (env : TranscriptEnv) (st : TranscriptState)
    (content : String) (parentId : Option String) (newId ts : String) :
    TranscriptEntry × TranscriptState :=
  let parent := match parentId with
    | some p => some p
    | none => getLastEntryId st
  append env st
    { parentId := parent
      type := EntryType.message
      role := some MsgRole.user
      content := content
      metadata := none } newId ts

/-- `addCompaction(summary, removedEntryIds)`: a `compaction` entry with
`parentId = null` and metadata recording the replaced ids and their count. -/
def addCompaction (env : TranscriptEnv) (st : TranscriptState)
    (summary : String) (removedEntryIds : List String) (newId ts : String) :
    TranscriptEntry × TranscriptState :=
  append env st
    { parentId := none
      type := EntryType.compaction
      role := none
      content := summary
      metadata := some
        (EntryMetadata.compactionInfo removedEntryIds removedEntryIds.length) }
    newId ts

/-- The backwards scan of `getRecentEntries()`: index of the last entry of
kind `compaction`, if any. -/
def lastCompactionIdx (es : List TranscriptEntry) : Option Nat :=
  (es.reverse.findIdx? (fun e => e.type = EntryType.compaction)).map
    (fun k => es.length - 1 - k)

/-- `getRecentEntries()`: the suffix from the last compaction entry
(inclusive), or all entries if there is none. -/
def getRecentEntries (st : TranscriptState) : List TranscriptEntry :=
  match lastCompactionIdx st.entries with
  | none => st.entries
  | some i => st.entries.drop i

/-- `getTotalTokens()`. -/
def getTotalTokens (st : TranscriptState) : Nat :=
  st.totalTokens

/-- `getRecentTokens()`: `recent.reduce((sum, e) => sum + (e.tokenCount || 0), 0)`. -/
def getRecentTokens (st : TranscriptState) : Nat :=
  ((getRecentEntries st).map entryTokens).sum

/-- `getEntryCount()`. -/
def getEntryCount (st : TranscriptState) : Nat :=
  st.entries.length

/-- `reload()`: discard the in-memory state and re-read from disk. -/
def reload (env : TranscriptEnv) (st : TranscriptState) : TranscriptState :=
  load env { st with loaded := false, entries := [], totalTokens := 0 }

end Transcript

/-! ## Claim C1: recent view right after a compaction -/

theorem lastCompactionIdx_append_compaction (es : List TranscriptEntry)
    (e : TranscriptEntry) (he : e.type = EntryType.compaction) :
    Transcript.lastCompactionIdx (es ++ [e]) = some es.length := by
  unfold Transcript.lastCompactionIdx
  rw [List.reverse_append]
  simp only [List.reverse_singleton, List.singleton_append, List.findIdx?_cons]
  rw [if_pos (by simp [he])]
  simp [List.length_append]

theorem getRecentEntries_append_compaction (st : TranscriptState)
    (e : TranscriptEntry) (he : e.type = EntryType.compaction) :
    Transcript.getRecentEntries
      { st with entries := st.entries ++ [e] }
      = [e] := by
  unfold Transcript.getRecentEntries
  rw [lastCompactionIdx_append_compaction st.entries e he]
  exact List.drop_left st.entries [e]

/-- Claim C1: immediately after `addCompaction(summary, ids)` completes,
`getRecentEntries()` returns the suffix starting exactly at the new compaction
entry (inclusive) — here that suffix is the one-element list holding just the
new entry, so no entry appended before it is included — and `getRecentTokens()`
equals the sum of `tokenCount` over that suffix only, i.e. the token count of
the new summary, excluding every pre-compaction entry's tokens. -/
theorem c1_recent_after_addCompaction (env : TranscriptEnv)
    (st : TranscriptState) (summary : String) (ids : List String)
    (newId ts : String) (hld : st.loaded = true) :
    Transcript.getRecentEntries
        (Transcript.addCompaction env st summary ids newId ts).2
      = [(Transcript.addCompaction env st summary ids newId ts).1] ∧
    Transcript.getRecentTokens
        (Transcript.addCompaction env st summary ids newId ts).2
      = env.countTokens summary := by
  have hload : Transcript.load env st = st := by
    unfold Transcript.load
    rw [if_pos hld]
  have hrec : Transcript.getRecentEntries
      (Transcript.addCompaction env st summary ids newId ts).2
      = [(Transcript.addCompaction env st summary ids newId ts).1] := by
    unfold Transcript.addCompaction Transcript.append
    simp only [hload]
    exact getRecentEntries_append_compaction st _ rfl
  refine ⟨hrec, ?_⟩
  unfold Transcript.getRecentTokens
  rw [hrec]
  unfold Transcript.addCompaction Transcript.append Transcript.mkFullEntry
  simp [entryTokens]

/-- A concrete environment standing in for the external collaborators in the
witnesses below: token counting by string length, a trivial line codec. -/
def sampleEnv : TranscriptEnv where
  countTokens := String.length
  encodeEntry := fun _ => "{}"
  decodeEntry := fun _ => none

/-- A loaded transcript state holding one plain message entry. -/
def sampleState : TranscriptState where
  file := ["{}"]
  entries :=
    [{ id := "a"
       parentId := none
       timestamp := "2026-01-30T00:00:00Z"
       type := EntryType.message
       role := some MsgRole.user
       content := "hello"
       tokenCount := some 5
       metadata := none }]
  totalTokens := 5
  loaded := true

theorem c1_recent_after_addCompaction_witness :
    sampleState.loaded = true ∧
    (Transcript.getRecentEntries
        (Transcript.addCompaction sampleEnv sampleState "sum" ["a"] "b" "t").2
      = [(Transcript.addCompaction sampleEnv sampleState "sum" ["a"] "b" "t").1] ∧
    Transcript.getRecentTokens
        (Transcript.addCompaction sampleEnv sampleState "sum" ["a"] "b" "t").2
      = sampleEnv.countTokens "sum") :=
  ⟨rfl, c1_recent_after_addCompaction sampleEnv sampleState "sum" ["a"] "b" "t" rfl⟩

/-! ## Claim C3: total tokens -/

theorem Transcript.load_of_loaded (env : TranscriptEnv) (st : TranscriptState)
    (hld : st.loaded = true) : Transcript.load env st = st := by
  unfold Transcript.load
  rw [if_pos hld]

/-- A sequence of message appends (`addUserMessage`), each with its injected
fresh id and timestamp. -/
def appendMessages (env : TranscriptEnv) :
    TranscriptState → List (String × String × String) → TranscriptState
  | st, [] => st
  | st, (c, i, t) :: rest =>
      appendMessages env (Transcript.addUserMessage env st c none i t).2 rest

theorem appendMessages_totalTokens (env : TranscriptEnv)
    (msgs : List (String × String × String)) :
    ∀ st : TranscriptState, st.loaded = true →
      (appendMessages env st msgs).totalTokens
        = st.totalTokens + (msgs.map (fun m => env.countTokens m.1)).sum ∧
      (appendMessages env st msgs).loaded = true := by
  induction msgs with
  | nil => intro st hld; exact ⟨by simp [appendMessages], hld⟩
  | cons m rest ih =>
    intro st hld
    rcases m with ⟨c, i, t⟩
    have hstep :
        (Transcript.addUserMessage env st c none i t).2.totalTokens
          = st.totalTokens + env.countTokens c ∧
        (Transcript.addUserMessage env st c none i t).2.loaded = true := by
      unfold Transcript.addUserMessage Transcript.append
      rw [Transcript.load_of_loaded env st hld]
      exact ⟨rfl, hld⟩
    have := ih (Transcript.addUserMessage env st c none i t).2 hstep.2
    refine ⟨?_, ?_⟩
    · show (appendMessages env (Transcript.addUserMessage env st c none i t).2
        rest).totalTokens = _
      rw [this.1, hstep.1]
      simp [List.map_cons, List.sum_cons, Nat.add_assoc]
    · exact this.2

/-- Claim C3: appending N messages to a fresh transcript makes
`getTotalTokens()` the sum of `countTokens` over the N message contents; and
in general `getTotalTokens()` sums the `tokenCount` of every entry ever
appended (the invariant is preserved by `append` for any entry kind, including
the entries logically archived behind a compaction boundary). -/
theorem c3_totalTokens (env : TranscriptEnv)
    (msgs : List (String × String × String))
    (st : TranscriptState) (input : Transcript.EntryInput) (newId ts : String)
    (hld : st.loaded = true)
    (hinv : st.totalTokens = (st.entries.map entryTokens).sum) :
    Transcript.getTotalTokens (appendMessages env (Transcript.init env []) msgs)
      = (msgs.map (fun m => env.countTokens m.1)).sum ∧
    (Transcript.append env st input newId ts).2.totalTokens
      = ((Transcript.append env st input newId ts).2.entries.map
          entryTokens).sum := by
  constructor
  · have hinit : Transcript.init env [] =
        { file := [], entries := [], totalTokens := 0, loaded := true } := rfl
    have := appendMessages_totalTokens env msgs (Transcript.init env [])
      (by rw [hinit])
    unfold Transcript.getTotalTokens
    rw [this.1, hinit]
    simp
  · unfold Transcript.append
    rw [Transcript.load_of_loaded env st hld]
    simp [hinv, entryTokens, Transcript.mkFullEntry]

theorem c3_totalTokens_witness :
    sampleState.loaded = true ∧
    sampleState.totalTokens = (sampleState.entries.map entryTokens).sum ∧
    (Transcript.getTotalTokens
        (appendMessages sampleEnv (Transcript.init sampleEnv [])
          [("ab", "i1", "t1"), ("xyz", "i2", "t2")])
      = ([("ab", "i1", "t1"), ("xyz", "i2", "t2")].map
          (fun m => sampleEnv.countTokens m.1)).sum ∧
    (Transcript.append sampleEnv sampleState
        ⟨none, EntryType.compaction, none, "sum", none⟩ "b" "t").2.totalTokens
      = ((Transcript.append sampleEnv sampleState
          ⟨none, EntryType.compaction, none, "sum", none⟩ "b" "t").2.entries.map
          entryTokens).sum) :=
  ⟨rfl, by decide,
    c3_totalTokens sampleEnv [("ab", "i1", "t1"), ("xyz", "i2", "t2")]
      sampleState ⟨none, EntryType.compaction, none, "sum", none⟩ "b" "t"
      rfl (by decide)⟩

/-! ## Claim C8: a corrupt transcript line is skipped, the rest still loads -/

theorem parseTranscriptLines_all_ok (env : TranscriptEnv) (ls : List String)
    (hok : ∀ l ∈ ls, jsTrim l ≠ "" ∧ (env.decodeEntry l).isSome = true) :
    (Transcript.parseTranscriptLines env ls).length = ls.length := by
  induction ls with
  | nil => rfl
  | cons l rest ih =>
    have hl := hok l (by simp)
    rcases Option.isSome_iff_exists.mp hl.2 with ⟨e, he⟩
    unfold Transcript.parseTranscriptLines at ih ⊢
    rw [List.filterMap_cons]
    rw [if_neg hl.1, he]
    simp [ih (fun x hx => hok x (List.mem_cons_of_mem l hx))]

/-- Claim C8: for a transcript file in which exactly one line fails to parse,
`load()` skips that line and still loads every other (parseable) line: the
loaded entries are exactly the entries of the good lines around it, one per
line, so a single corrupted line never causes `load` to fail and never
invalidates any other entry. -/
theorem c8_load_skips_corrupt_line (env : TranscriptEnv)
    (xs ys : List String) (bad : String)
    (hbadNb : jsTrim bad ≠ "")
    (hbad : env.decodeEntry bad = none)
    (hok : ∀ l ∈ xs ++ ys, jsTrim l ≠ "" ∧ (env.decodeEntry l).isSome = true) :
    (Transcript.init env (xs ++ bad :: ys)).entries
      = Transcript.parseTranscriptLines env xs
        ++ Transcript.parseTranscriptLines env ys ∧
    (Transcript.init env (xs ++ bad :: ys)).entries.length
      = xs.length + ys.length := by
  have hentries : (Transcript.init env (xs ++ bad :: ys)).entries
      = Transcript.parseTranscriptLines env (xs ++ bad :: ys) := rfl
  have hsplit : Transcript.parseTranscriptLines env (xs ++ bad :: ys)
      = Transcript.parseTranscriptLines env xs
        ++ Transcript.parseTranscriptLines env ys := by
    unfold Transcript.parseTranscriptLines
    rw [List.filterMap_append, List.filterMap_cons, if_neg hbadNb, hbad]
  constructor
  · rw [hentries, hsplit]
  · rw [hentries, hsplit, List.length_append,
      parseTranscriptLines_all_ok env xs
        (fun l hl => hok l (List.mem_append_left ys hl)),
      parseTranscriptLines_all_ok env ys
        (fun l hl => hok l (List.mem_append_right xs hl))]

/-- A decoder for the C8 witness: parses the single line `"E"` to a fixed
entry and rejects everything else. -/
def c8Env : TranscriptEnv where
  countTokens := String.length
  encodeEntry := fun _ => "E"
  decodeEntry := fun line =>
    if line = "E"
    then some
      { id := "a", parentId := none, timestamp := "t"
        type := EntryType.message, role := some MsgRole.user
        content := "hello", tokenCount := some 5, metadata := none }
    else none

theorem c8_load_skips_corrupt_line_witness :
    jsTrim "garbage" ≠ "" ∧
    c8Env.decodeEntry "garbage" = none ∧
    (∀ l ∈ ["E"] ++ ["E", "E"],
      jsTrim l ≠ "" ∧ (c8Env.decodeEntry l).isSome = true) ∧
    ((Transcript.init c8Env (["E"] ++ "garbage" :: ["E", "E"])).entries
      = Transcript.parseTranscriptLines c8Env ["E"]
        ++ Transcript.parseTranscriptLines c8Env ["E", "E"] ∧
    (Transcript.init c8Env (["E"] ++ "garbage" :: ["E", "E"])).entries.length
      = (["E"] : List String).length + (["E", "E"] : List String).length) :=
  ⟨by decide, by decide, by decide,
    c8_load_skips_corrupt_line c8Env ["E"] ["E", "E"] "garbage"
      (by decide) (by decide) (by decide)⟩

/-! ## Claim C4: append / reload round-trip -/

/-- Claim C4: for an entry appended to a transcript, `reload()` (discard the
in-memory state and re-read the file) followed by reading the entry back (it
is the last entry) yields an entry equal to the one `append` returned — in
particular identical id, timestamp, kind, role, content and token count.  The
JSON line codec is external (`JSON.stringify` / `JSON.parse`); the theorem
assumes it round-trips the appended entry and produces a non-blank line, which
JSON serialization of a record guarantees. -/
theorem c4_append_reload_roundtrip (env : TranscriptEnv)
    (st : TranscriptState) (input : Transcript.EntryInput) (newId ts : String)
    (hld : st.loaded = true)
    (hround : env.decodeEntry
        (env.encodeEntry (Transcript.mkFullEntry env input newId ts))
      = some (Transcript.mkFullEntry env input newId ts))
    (hnb : jsTrim (env.encodeEntry (Transcript.mkFullEntry env input newId ts))
      ≠ "") :
    (Transcript.reload env (Transcript.append env st input newId ts).2).entries.getLast?
      = some (Transcript.append env st input newId ts).1 := by
  unfold Transcript.append
  rw [Transcript.load_of_loaded env st hld]
  show (Transcript.reload env _).entries.getLast? = some (Transcript.mkFullEntry env input newId ts)
  unfold Transcript.reload Transcript.load
  rw [if_neg (by simp)]
  show (Transcript.parseTranscriptLines env
    (st.file ++ [env.encodeEntry (Transcript.mkFullEntry env input newId ts)])).getLast?
    = _
  unfold Transcript.parseTranscriptLines
  rw [List.filterMap_append]
  have : List.filterMap
      (fun line => if jsTrim line = "" then none else env.decodeEntry line)
      [env.encodeEntry (Transcript.mkFullEntry env input newId ts)]
      = [Transcript.mkFullEntry env input newId ts] := by
    rw [List.filterMap_cons, if_neg hnb, hround]
    rfl
  rw [this]
  exact List.getLast?_concat _

/-- The entry used by the C4 witness. -/
def c4Entry : TranscriptEntry where
  id := "b"
  parentId := none
  timestamp := "t"
  type := EntryType.message
  role := some MsgRole.user
  content := "hi"
  tokenCount := some 2
  metadata := none

/-- An environment whose line codec round-trips `c4Entry`. -/
def c4Env : TranscriptEnv where
  countTokens := String.length
  encodeEntry := fun _ => "{e}"
  decodeEntry := fun line => if line = "{e}" then some c4Entry else none

theorem c4_append_reload_roundtrip_witness :
    sampleState.loaded = true ∧
    c4Env.decodeEntry
        (c4Env.encodeEntry
          (Transcript.mkFullEntry c4Env
            ⟨none, EntryType.message, some MsgRole.user, "hi", none⟩ "b" "t"))
      = some (Transcript.mkFullEntry c4Env
          ⟨none, EntryType.message, some MsgRole.user, "hi", none⟩ "b" "t") ∧
    jsTrim (c4Env.encodeEntry
        (Transcript.mkFullEntry c4Env
          ⟨none, EntryType.message, some MsgRole.user, "hi", none⟩ "b" "t"))
      ≠ "" ∧
    (Transcript.reload c4Env
        (Transcript.append c4Env sampleState
          ⟨none, EntryType.message, some MsgRole.user, "hi", none⟩
          "b" "t").2).entries.getLast?
      = some (Transcript.append c4Env sampleState
          ⟨none, EntryType.message, some MsgRole.user, "hi", none⟩ "b" "t").1 :=
  ⟨rfl, by decide, by decide,
    c4_append_reload_roundtrip c4Env sampleState
      ⟨none, EntryType.message, some MsgRole.user, "hi", none⟩ "b" "t"
      rfl (by decide) (by decide)⟩

/-! ## Claim C10: `getEntries()` / `getRecentEntries()` return fresh arrays

`getEntries` returns `[...this.entries]` and `getRecentEntries` returns
`[...this.entries]` or `this.entries.slice(i)` — in every case a newly
allocated array.  To make array identity observable, this model gives JS
arrays an explicit heap: a reference is an index into a store of arrays, the
transcript object holds a reference to its internal array, the spread / slice
allocates a fresh reference, and mutating an array writes through its
reference. -/

/-- A JS array reference (heap address). -/
abbrev ArrRef := Nat

/-- The store of entry arrays. -/
structure EntryHeap where
  arrays : List (List TranscriptEntry)

/-- Dereference. -/
def EntryHeap.read (h : EntryHeap) (r : ArrRef) : List TranscriptEntry :=
  (h.arrays[r]?).getD []

/-- Allocate a fresh array holding the given elements (JS `[...xs]` /
`xs.slice(i)` both allocate). -/
def EntryHeap.alloc (h : EntryHeap) (xs : List TranscriptEntry) :
    ArrRef × EntryHeap :=
  (h.arrays.length, ⟨h.arrays ++ [xs]⟩)

/-- In-place mutation of the array behind a reference (push / pop / reorder /
arbitrary rewrite of the returned array). -/
def EntryHeap.write (h : EntryHeap) (r : ArrRef) (xs : List TranscriptEntry) :
    EntryHeap :=
  ⟨h.arrays.set r xs⟩

/-- The transcript object of the reference model: it holds the reference to
its private `entries` array (`this.entries`). -/
structure TranscriptObj where
  entriesRef : ArrRef

/-- The recent-suffix computation shared by `getRecentEntries()`:
the suffix from the last compaction entry, or everything. -/
def recentSlice (es : List TranscriptEntry) : List TranscriptEntry :=
  match Transcript.lastCompactionIdx es with
  | none => es
  | some i => es.drop i

/-- `getEntries()` in the reference model: `return [...this.entries]`. -/
def TranscriptObj.getEntriesR (t : TranscriptObj) (h : EntryHeap) :
    ArrRef × EntryHeap :=
  h.alloc (h.read t.entriesRef)

/-- `getRecentEntries()` in the reference model: `[...this.entries]` or
`this.entries.slice(lastCompactionIndex)`, both freshly allocated. -/
def TranscriptObj.getRecentEntriesR (t : TranscriptObj) (h : EntryHeap) :
    ArrRef × EntryHeap :=
  h.alloc (recentSlice (h.read t.entriesRef))

theorem EntryHeap.read_write_ne (h : EntryHeap) (r r' : ArrRef)
    (xs : List TranscriptEntry) (hne : r ≠ r') :
    (h.write r xs).read r' = h.read r' := by
  unfold EntryHeap.read EntryHeap.write
  rw [List.getElem?_set_ne hne]

theorem EntryHeap.read_alloc_old (h : EntryHeap) (xs : List TranscriptEntry)
    (r : ArrRef) (hr : r < h.arrays.length) :
    (h.alloc xs).2.read r = h.read r := by
  unfold EntryHeap.read EntryHeap.alloc
  rw [List.getElem?_append_left hr]

theorem EntryHeap.read_alloc_new (h : EntryHeap) (xs : List TranscriptEntry) :
    (h.alloc xs).2.read (h.alloc xs).1 = xs := by
  unfold EntryHeap.read EntryHeap.alloc
  rw [List.getElem?_concat_length]
  rfl

/-- Claim C10: `getEntries()` and `getRecentEntries()` return fresh arrays —
mutating the returned array (modelled as overwriting its heap cell with any
function of its contents) leaves the transcript's internal entry sequence,
entry count and token totals unchanged, and a subsequent call returns the same
entries as before the mutation.  Stated for both accessors, each with its own
arbitrary mutation. -/
theorem c10_returned_arrays_fresh (t : TranscriptObj) (h : EntryHeap)
    (hv : t.entriesRef < h.arrays.length)
    (mut1 mut2 : List TranscriptEntry → List TranscriptEntry) :
    ((((t.getEntriesR h).2.write (t.getEntriesR h).1
          (mut1 ((t.getEntriesR h).2.read (t.getEntriesR h).1))).read
        t.entriesRef = h.read t.entriesRef) ∧
      ((t.getEntriesR ((t.getEntriesR h).2.write (t.getEntriesR h).1
          (mut1 ((t.getEntriesR h).2.read (t.getEntriesR h).1)))).2.read
        (t.getEntriesR ((t.getEntriesR h).2.write (t.getEntriesR h).1
          (mut1 ((t.getEntriesR h).2.read (t.getEntriesR h).1)))).1
        = h.read t.entriesRef)) ∧
    ((((t.getRecentEntriesR h).2.write (t.getRecentEntriesR h).1
          (mut2 ((t.getRecentEntriesR h).2.read (t.getRecentEntriesR h).1))).read
        t.entriesRef = h.read t.entriesRef) ∧
      ((t.getRecentEntriesR ((t.getRecentEntriesR h).2.write
          (t.getRecentEntriesR h).1
          (mut2 ((t.getRecentEntriesR h).2.read (t.getRecentEntriesR h).1)))).2.read
        (t.getRecentEntriesR ((t.getRecentEntriesR h).2.write
          (t.getRecentEntriesR h).1
          (mut2 ((t.getRecentEntriesR h).2.read (t.getRecentEntriesR h).1)))).1
        = recentSlice (h.read t.entriesRef))) := by
  have hne : t.entriesRef ≠ h.arrays.length := Nat.ne_of_lt hv
  constructor
  · unfold TranscriptObj.getEntriesR
    have hint : ∀ xs,
        ((h.alloc (h.read t.entriesRef)).2.write
          (h.alloc (h.read t.entriesRef)).1 xs).read t.entriesRef
          = h.read t.entriesRef := by
      intro xs
      rw [show (h.alloc (h.read t.entriesRef)).1 = h.arrays.length from rfl,
        EntryHeap.read_write_ne _ _ _ _ (fun hh => hne hh.symm)]
      exact EntryHeap.read_alloc_old h _ t.entriesRef hv
    refine ⟨hint _, ?_⟩
    rw [EntryHeap.read_alloc_new, hint _]
  · unfold TranscriptObj.getRecentEntriesR
    have hint : ∀ xs,
        ((h.alloc (recentSlice (h.read t.entriesRef))).2.write
          (h.alloc (recentSlice (h.read t.entriesRef))).1 xs).read t.entriesRef
          = h.read t.entriesRef := by
      intro xs
      rw [show (h.alloc (recentSlice (h.read t.entriesRef))).1
          = h.arrays.length from rfl,
        EntryHeap.read_write_ne _ _ _ _ (fun hh => hne hh.symm)]
      exact EntryHeap.read_alloc_old h _ t.entriesRef hv
    refine ⟨hint _, ?_⟩
    rw [EntryHeap.read_alloc_new, hint _]

/-- Witness heap for C10: one internal entries array at reference 0. -/
def c10Heap : EntryHeap where
  arrays := [[{ id := "a", parentId := none, timestamp := "t"
                type := EntryType.message, role := some MsgRole.user
                content := "hello", tokenCount := some 5, metadata := none }]]

/-- Witness transcript object for C10. -/
def c10Obj : TranscriptObj where
  entriesRef := 0

/-- Witness mutation for C10: drop everything from the returned array. -/
def c10Mut (xs : List TranscriptEntry) : List TranscriptEntry :=
  xs.drop xs.length

theorem c10_returned_arrays_fresh_witness :
    c10Obj.entriesRef < c10Heap.arrays.length ∧
    (((((c10Obj.getEntriesR c10Heap).2.write (c10Obj.getEntriesR c10Heap).1
          (c10Mut ((c10Obj.getEntriesR c10Heap).2.read
            (c10Obj.getEntriesR c10Heap).1))).read
        c10Obj.entriesRef = c10Heap.read c10Obj.entriesRef) ∧
      ((c10Obj.getEntriesR ((c10Obj.getEntriesR c10Heap).2.write
          (c10Obj.getEntriesR c10Heap).1
          (c10Mut ((c10Obj.getEntriesR c10Heap).2.read
            (c10Obj.getEntriesR c10Heap).1)))).2.read
        (c10Obj.getEntriesR ((c10Obj.getEntriesR c10Heap).2.write
          (c10Obj.getEntriesR c10Heap).1
          (c10Mut ((c10Obj.getEntriesR c10Heap).2.read
            (c10Obj.getEntriesR c10Heap).1)))).1
        = c10Heap.read c10Obj.entriesRef)) ∧
    ((((c10Obj.getRecentEntriesR c10Heap).2.write
          (c10Obj.getRecentEntriesR c10Heap).1
          (c10Mut ((c10Obj.getRecentEntriesR c10Heap).2.read
            (c10Obj.getRecentEntriesR c10Heap).1))).read
        c10Obj.entriesRef = c10Heap.read c10Obj.entriesRef) ∧
      ((c10Obj.getRecentEntriesR ((c10Obj.getRecentEntriesR c10Heap).2.write
          (c10Obj.getRecentEntriesR c10Heap).1
          (c10Mut ((c10Obj.getRecentEntriesR c10Heap).2.read
            (c10Obj.getRecentEntriesR c10Heap).1)))).2.read
        (c10Obj.getRecentEntriesR ((c10Obj.getRecentEntriesR c10Heap).2.write
          (c10Obj.getRecentEntriesR c10Heap).1
          (c10Mut ((c10Obj.getRecentEntriesR c10Heap).2.read
            (c10Obj.getRecentEntriesR c10Heap).1)))).1
        = recentSlice (c10Heap.read c10Obj.entriesRef)))) :=
  ⟨by decide, c10_returned_arrays_fresh c10Obj c10Heap (by decide) c10Mut c10Mut⟩

/-! ## Claim C5: `search(pattern)` over raw lines

Both `LongTermMemory.search` (src/memory/LongTermMemory.ts) and
`DailyNotes.search` (src/memory/DailyNotes.ts) build
`new RegExp(pattern, 'gi')` once and then call `regex.test(line)` for every
line.  A JS regex with the `g` flag is stateful: `test` starts matching at
`regex.lastIndex`, sets `lastIndex` past the match on success, and resets it
to 0 on failure.  The model below embeds exactly that, for literal (escape
free) patterns, where the regex match is case-insensitive substring search. -/

/-- Does `pat` match (case-insensitively) at the head of `cs`? -/
def ciLeads : List Char → List Char → Bool
  | [], _ => true
  | _ :: _, [] => false
  | p :: ps, c :: cs => (p.toLower == c.toLower) && ciLeads ps cs

/-- Index of the first case-insensitive occurrence of `pat` in `cs`. -/
def findCiIn (pat : List Char) : List Char → Option Nat
  | [] => if pat.isEmpty then some 0 else none
  | c :: cs =>
    if ciLeads pat (c :: cs) then some 0
    else (findCiIn pat cs).map (fun i => i + 1)

/-- First occurrence of `pat` in `cs` at a position `≥ start`. -/
def findCiFrom (pat cs : List Char) (start : Nat) : Option Nat :=
  (findCiIn pat (cs.drop start)).map (fun i => i + start)

/-- A `RegExp(pattern, 'gi')` object for a literal pattern: the pattern text
plus its mutable `lastIndex`. -/
structure GRegex where
  pat : List Char
  lastIndex : Nat
deriving Repr

/-- `regex.test(str)` with the `g` flag: search from `lastIndex`; on success
advance `lastIndex` past the match, on failure reset it to 0. -/
def GRegex.test (r : GRegex) (line : String) : Bool × GRegex :=
  match findCiFrom r.pat line.data r.lastIndex with
  | some p => (true, { r with lastIndex := p + r.pat.length })
  | none => (false, { r with lastIndex := 0 })

namespace LongTermMemory

/-- `search(pattern)` (src/memory/LongTermMemory.ts): split the file content
into lines and `lines.filter((line) => regex.test(line))` with the single
shared `'gi'` regex object threaded through the whole filter. -/
def search (pattern content : String) : List String :=
  ((jsSplitNl content).foldl
    (fun (acc : List String × GRegex) line =>
      let res := GRegex.test acc.2 line
      (if res.1 then acc.1 ++ [line] else acc.1, res.2))
    ([], { pat := pattern.data, lastIndex := 0 })).1

end LongTermMemory

namespace DailyNotes

/-- `search(pattern)` (src/memory/DailyNotes.ts): for every dated file (the
argument list carries `(date, content)` pairs in the descending order produced
by `listDates()`), scan every line and collect `(date, line)` for each line
the shared `'gi'` regex object accepts. -/
def search (pattern : String) (files : List (String × String)) :
    List (String × String) :=
  (files.foldl
    (fun (acc : List (String × String) × GRegex) file =>
      (jsSplitNl file.2).foldl
        (fun (acc2 : List (String × String) × GRegex) line =>
          let res := GRegex.test acc2.2 line
          (if res.1 then acc2.1 ++ [(file.1, line)] else acc2.1, res.2))
        acc)
    ([], { pat := pattern.data, lastIndex := 0 })).1

end DailyNotes

/-- The search behaviour the specification describes: keep exactly the lines
with a case-insensitive match, each verbatim and in file order. -/
def searchSpec (pattern content : String) : List String :=
  (jsSplitNl content).filter (fun line => (findCiIn pattern.data line.data).isSome)

/-- Claim C5 is violated by the code: with pattern `"a"` and file content
`"ab\nab"` both lines match case-insensitively (the spec-described result is
both lines), but the shared `g`-flagged regex carries its `lastIndex` from
the first line into the second, so the code returns only the first line and
omits the second matching line.  `DailyNotes.search` drops the same line. -/
theorem c5_search_misses_matching_lines :
    LongTermMemory.search "a" "ab\nab" = ["ab"] ∧
    searchSpec "a" "ab\nab" = ["ab", "ab"] ∧
    DailyNotes.search "a" [("2026-01-30", "ab\nab")] = [("2026-01-30", "ab")] := by
  refine ⟨?_, ?_, ?_⟩ <;> rfl

/-! ## SectionDocument (src/utils/markdown.ts, not in the available sources)

`parseSections` and `appendToSection` live in `src/utils/markdown.ts`, which
is not among the available source files (only their callers in
`LongTermMemory.ts` and the export list in `index.ts` are).  The definitions
in this section are therefore modelled from the specification's
SectionDocument contract (spec sections 3 and 4.1). -/

/-- Modelled from the spec: a heading line is one-to-three leading `#`
characters followed by whitespace and the title text; the title is the
remainder, trimmed.  `#tag` (no whitespace after the hashes) is not a
heading. -/
def parseHeadingCh (cs : List Char) : Option (List Char) :=
  if 1 ≤ (cs.takeWhile (fun c => c == '#')).length
      && (cs.takeWhile (fun c => c == '#')).length ≤ 3 then
    match cs.drop (cs.takeWhile (fun c => c == '#')).length with
    | c :: rest => if isWsChar c then some (trimCh (c :: rest)) else none
    | [] => none
  else none

/-- Heading-line test / title extraction on strings. -/
def parseHeading (line : String) : Option String :=
  (parseHeadingCh line.data).map String.mk

/-- Modelled from the spec: `parse(text)` splits on heading lines; everything
else accumulates into the body of the most recent heading seen, or into an
untitled leading section.  `curTitle`/`curBody` is the section currently
being accumulated. -/
def parseSecAux (curTitle : String) (curBody : List String) :
    List String → List (String × List String)
  | [] => [(curTitle, curBody)]
  | l :: rest =>
    match parseHeading l with
    | some t => (curTitle, curBody) :: parseSecAux t [] rest
    | none => parseSecAux curTitle (curBody ++ [l]) rest

/-- Modelled from the spec: `parse(text)` — the ordered list of
`(title, rawBody)` pairs, bodies stored verbatim as line lists; a document
with no headings is the single implicit section titled `""`. -/
def parseSections (text : String) : List (String × List String) :=
  parseSecAux "" [] (jsSplitNl text)

/-- A line whose `trim()` is empty. -/
def isBlankLine (l : String) : Bool :=
  jsTrim l == ""

/-- Drop blank lines from the end of a body. -/
def dropTrailingBlanks (ls : List String) : List String :=
  (ls.reverse.dropWhile isBlankLine).reverse

/-- Modelled from the spec: body text is trimmed of leading and trailing
blank lines when retrieved, not when stored. -/
def trimBlankEdges (ls : List String) : List String :=
  ((ls.dropWhile isBlankLine).reverse.dropWhile isBlankLine).reverse

/-- Any heading line (any parsed title). -/
def isHeadingLine (l : String) : Bool :=
  (parseHeading l).isSome

/-- Modelled from the spec: `upsertInSection(text, title, newLine,
createIfMissing)` on the line list.  If the section exists, append `newLine`
as the last line of its body, collapsing trailing blank lines first so that
exactly one blank line separates the body from the next heading; if it does
not exist and `createIfMissing`, append a `## title` heading plus `newLine`
at the end of the document. -/
def upsertLines (lines : List String) (title newLine : String)
    (createIfMissing : Bool) : List String :=
  match lines.findIdx? (fun l => parseHeading l == some title) with
  | some i =>
    let pre := lines.take (i + 1)
    let after := lines.drop (i + 1)
    match after.findIdx? isHeadingLine with
    | some j =>
        pre ++ dropTrailingBlanks (after.take j) ++ [newLine, ""]
          ++ after.drop j
    | none =>
        pre ++ dropTrailingBlanks after ++ [newLine]
  | none =>
    if createIfMissing then
      dropTrailingBlanks lines ++ ["", "## " ++ title, newLine]
    else lines

/-- Modelled from the spec: `upsertInSection` on document text
(`appendToSection` is the exported name the LongTermMemory class imports). -/
def appendToSection (text title newLine : String) (createIfMissing : Bool) :
    String :=
  jsJoinNl (upsertLines (jsSplitNl text) title newLine createIfMissing)

namespace LongTermMemory

/-- `getSection(sectionTitle)` (src/memory/LongTermMemory.ts): look the title
up in the parsed sections.  Modelled from the spec for the lookup itself:
exact match on the trimmed title, case-sensitive, first match if duplicated;
the body is trimmed of leading/trailing blank lines when retrieved. -/
def getSection (content sectionTitle : String) : Option String :=
  ((parseSections content).find? (fun p => p.1 == sectionTitle)).map
    (fun p => jsJoinNl (trimBlankEdges p.2))

/-- `line.replace(/^\s*[-*+]\s*/, '')`: strip one leading bullet marker and
surrounding whitespace; a line with no bullet marker is left unchanged. -/
def bulletStrip (cs : List Char) : List Char :=
  match cs.dropWhile isWsChar with
  | c :: rest =>
    if c == '-' || c == '*' || c == '+' then rest.dropWhile isWsChar else cs
  | [] => cs

/-- The per-line normalization of `hasFact`:
`line.replace(/^\s*[-*+]\s*/, '').trim().toLowerCase()`. -/
def lineNorm (line : String) : String :=
  String.mk ((trimCh (bulletStrip line.data)).map Char.toLower)

/-- The fact normalization of `hasFact`: `fact.trim().toLowerCase()`. -/
def factNorm (fact : String) : String :=
  String.mk ((trimCh fact.data).map Char.toLower)

/-- `hasFact(section, fact)` (src/memory/LongTermMemory.ts): false when the
section is missing or its content is empty (`if (!sectionContent)`), else
true iff some line of the section content normalizes to the normalized
fact. -/
def hasFact (content sectionName fact : String) : Bool :=
  match getSection content sectionName with
  | none => false
  | some body =>
    if body == "" then false
    else (jsSplitNl body).any (fun line => lineNorm line == factNorm fact)

/-- `addFact(section, fact, skipDuplicates)` (src/memory/LongTermMemory.ts):
returns the `(added?, new file content)` pair: skip without writing when
`skipDuplicates` and the fact already exists, otherwise append `- fact` via
`appendToSection` with `createIfMissing = true`. -/
def addFact (content sectionName fact : String) (skipDuplicates : Bool) :
    Bool × String :=
  if skipDuplicates && hasFact content sectionName fact then (false, content)
  else (true, appendToSection content sectionName ("- " ++ fact) true)

/-- Modelled from the spec: `removeFact(section, fact)` — locate the first
bullet line in the section whose normalized text equals the fact's
normalized text; if found, delete that single line and return "removed",
else return "not found" without modifying the text. -/
def removeFactLines (lines : List String) (title fact : String) :
    Bool × List String :=
  match lines.findIdx? (fun l => parseHeading l == some title) with
  | none => (false, lines)
  | some i =>
    let after := lines.drop (i + 1)
    let stop :=
      match after.findIdx? isHeadingLine with
      | some j => j
      | none => after.length
    let body := after.take stop
    match body.findIdx? (fun l => lineNorm l == factNorm fact) with
    | none => (false, lines)
    | some k =>
      (true,
        lines.take (i + 1 + k) ++ lines.drop (i + 1 + k + 1))

/-- Modelled from the spec: `removeFact` on document text. -/
def removeFact (content sectionName fact : String) : Bool × String :=
  let r := removeFactLines (jsSplitNl content) sectionName fact
  (r.1, if r.1 then jsJoinNl r.2 else content)

end LongTermMemory

/-! ## Claim C6: duplicate section titles — first match wins -/

theorem find?_eq_of_getElem? {α : Type} (l : List α) (p : α → Bool) :
    ∀ (i : Nat) (a : α), l[i]? = some a → p a = true →
      (∀ k, k < i → Option.all (fun b => !(p b)) l[k]? = true) →
      l.find? p = some a := by
  induction l with
  | nil => intro i a ha; simp at ha
  | cons x xs ih =>
    intro i a ha hpa hlt
    cases i with
    | zero =>
      simp only [List.getElem?_cons_zero, Option.some_inj] at ha
      subst ha
      simp [List.find?_cons, hpa]
    | succ i' =>
      have hx := hlt 0 (Nat.succ_pos i')
      simp only [List.getElem?_cons_zero, Option.all_some, Bool.not_eq_true'] at hx
      simp only [List.getElem?_cons_succ] at ha
      rw [List.find?_cons, hx]
      exact ih i' a ha hpa (fun k hk => by
        have := hlt (k + 1) (Nat.succ_lt_succ hk)
        simpa using this)

/-- Claim C6: for a document text containing two or more sections with the
same (trimmed, case-sensitively matched) title, `getSection(title)` returns
the body of the first matching section in document order — not the last and
not a merge. -/
theorem c6_getSection_first_of_duplicates (text T : String) (i j : Nat)
    (Bi Bj : List String)
    (hij : i < j)
    (hi : (parseSections text)[i]? = some (T, Bi))
    (hj : (parseSections text)[j]? = some (T, Bj))
    (hfirst : ∀ k, k < i →
      Option.all (fun p => !(p.1 == T)) (parseSections text)[k]? = true) :
    LongTermMemory.getSection text T = some (jsJoinNl (trimBlankEdges Bi)) := by
  unfold LongTermMemory.getSection
  rw [find?_eq_of_getElem? _ _ i (T, Bi) hi (by simp) hfirst]
  rfl

theorem c6_getSection_first_of_duplicates_witness :
    1 < 2 ∧
    (parseSections "## A\nbody1\n## A\nbody2")[1]? = some ("A", ["body1"]) ∧
    (parseSections "## A\nbody1\n## A\nbody2")[2]? = some ("A", ["body2"]) ∧
    (∀ k, k < 1 →
      Option.all (fun p => !(p.1 == "A"))
        (parseSections "## A\nbody1\n## A\nbody2")[k]? = true) ∧
    (LongTermMemory.getSection "## A\nbody1\n## A\nbody2" "A"
        = some (jsJoinNl (trimBlankEdges ["body1"])) ∧
      jsJoinNl (trimBlankEdges ["body1"]) = "body1" ∧
      jsJoinNl (trimBlankEdges ["body1"]) ≠ jsJoinNl (trimBlankEdges ["body2"])) :=
  ⟨by decide, by decide, by decide, by decide,
    c6_getSection_first_of_duplicates "## A\nbody1\n## A\nbody2" "A" 1 2
      ["body1"] ["body2"] (by decide) (by decide) (by decide) (by decide),
    by decide, by decide⟩

/-! ## Supporting lemmas for the fact-store claims -/

theorem dropWhile_ws_idem (cs : List Char) :
    (cs.dropWhile isWsChar).dropWhile isWsChar = cs.dropWhile isWsChar := by
  induction cs with
  | nil => rfl
  | cons c rest ih =>
    by_cases hc : isWsChar c = true
    · simp [List.dropWhile_cons, hc, ih]
    · simp [List.dropWhile_cons, hc]

theorem trimCh_dropWhile (cs : List Char) :
    trimCh (cs.dropWhile isWsChar) = trimCh cs := by
  unfold trimCh
  rw [dropWhile_ws_idem]

theorem trimCh_cons_ws (c : Char) (cs : List Char) (hc : isWsChar c = true) :
    trimCh (c :: cs) = trimCh cs := by
  unfold trimCh
  rw [List.dropWhile_cons, if_pos hc]

theorem trimCh_all_ws (cs : List Char) (h : trimCh cs = []) :
    ∀ c ∈ cs, isWsChar c = true := by
  induction cs with
  | nil => simp
  | cons c rest ih =>
    by_cases hc : isWsChar c = true
    · rw [trimCh_cons_ws c rest hc] at h
      intro x hx
      rcases List.mem_cons.mp hx with hx | hx
      · exact hx ▸ hc
      · exact ih h x hx
    · exfalso
      unfold trimCh at h
      rw [List.dropWhile_cons, if_neg hc] at h
      have h1 : (c :: rest).reverse.dropWhile isWsChar = [] := by
        have := congrArg List.reverse h
        simpa using this
      have h2 := List.dropWhile_eq_nil_iff.mp h1 c (by simp)
      exact hc h2

theorem isBlankLine_iff_trimCh (l : String) :
    isBlankLine l = true ↔ trimCh l.data = [] := by
  unfold isBlankLine jsTrim
  constructor
  · intro h
    have : String.mk (trimCh l.data) = "" := by
      exact eq_of_beq h
    have := congrArg String.data this
    simpa using this
  · intro h
    rw [h]
    rfl

theorem lineNorm_blank (l : String) (h : isBlankLine l = true) :
    LongTermMemory.lineNorm l = "" := by
  have htr := (isBlankLine_iff_trimCh l).mp h
  have hws := trimCh_all_ws l.data htr
  have hdrop : l.data.dropWhile isWsChar = [] :=
    List.dropWhile_eq_nil_iff.mpr hws
  unfold LongTermMemory.lineNorm LongTermMemory.bulletStrip
  rw [hdrop]
  rw [htr]
  rfl

theorem bullet_data (F : String) :
    ("- " ++ F).data = '-' :: ' ' :: F.data := by
  rw [String.data_append]
  rfl

theorem lineNorm_bullet (F : String) :
    LongTermMemory.lineNorm ("- " ++ F) = LongTermMemory.factNorm F := by
  unfold LongTermMemory.lineNorm LongTermMemory.bulletStrip LongTermMemory.factNorm
  rw [bullet_data]
  simp [isWsChar, List.dropWhile_cons]
  rw [trimCh_dropWhile]

theorem isBlankLine_bullet (F : String) :
    isBlankLine ("- " ++ F) = false := by
  rw [Bool.eq_false_iff]
  intro h
  have := trimCh_all_ws _ ((isBlankLine_iff_trimCh _).mp h) '-'
    (by rw [bullet_data]; simp)
  simp [isWsChar] at this

theorem noNl_of_mem_jsSplitNl (s : String) (l : String)
    (hl : l ∈ jsSplitNl s) : noNl l = true := by
  unfold jsSplitNl at hl
  rcases List.mem_map.mp hl with ⟨p, hp, rfl⟩
  have := splitChNl_no_nl s.data p hp
  unfold noNl
  simpa [List.contains_eq_any_beq] using this

theorem noNl_bullet (F : String) (hF : noNl F = true) :
    noNl ("- " ++ F) = true := by
  unfold noNl at hF ⊢
  rw [bullet_data]
  simpa [List.contains_eq_any_beq] using hF

theorem any_dropWhile_eq {p q : String → Bool} (ls : List String)
    (h : ∀ l, q l = true → p l = false) :
    (ls.dropWhile q).any p = ls.any p := by
  induction ls with
  | nil => rfl
  | cons x xs ih =>
    by_cases hx : q x = true
    · rw [List.dropWhile_cons, if_pos hx, ih, List.any_cons, h x hx]
      simp
    · rw [List.dropWhile_cons, if_neg hx]

theorem any_trimBlankEdges {p : String → Bool} (ls : List String)
    (h : ∀ l, isBlankLine l = true → p l = false) :
    (trimBlankEdges ls).any p = ls.any p := by
  unfold trimBlankEdges
  rw [List.any_reverse, any_dropWhile_eq _ h, List.any_reverse,
    any_dropWhile_eq _ h]

theorem mem_of_mem_dropWhile {q : String → Bool} {l : String}
    {ls : List String} (h : l ∈ ls.dropWhile q) : l ∈ ls :=
  (List.dropWhile_sublist q).mem h

theorem mem_of_mem_trimBlankEdges {l : String} {ls : List String}
    (h : l ∈ trimBlankEdges ls) : l ∈ ls := by
  unfold trimBlankEdges at h
  rw [List.mem_reverse] at h
  have := mem_of_mem_dropWhile h
  rw [List.mem_reverse] at this
  exact mem_of_mem_dropWhile this

theorem mem_of_mem_dropTrailingBlanks {l : String} {ls : List String}
    (h : l ∈ dropTrailingBlanks ls) : l ∈ ls := by
  unfold dropTrailingBlanks at h
  rw [List.mem_reverse] at h
  have := mem_of_mem_dropWhile h
  rw [List.mem_reverse] at this
  exact this

theorem trimBlankEdges_eq_nil (ls : List String)
    (h : trimBlankEdges ls = []) : ∀ l ∈ ls, isBlankLine l = true := by
  unfold trimBlankEdges at h
  have h1 : (ls.dropWhile isBlankLine).reverse.dropWhile isBlankLine = [] := by
    have := congrArg List.reverse h
    simpa using this
  have h2 : ∀ l ∈ ls.dropWhile isBlankLine, isBlankLine l = true := by
    intro l hl
    exact List.dropWhile_eq_nil_iff.mp h1 l (List.mem_reverse.mpr hl)
  have h3 : ls.dropWhile isBlankLine = [] := by
    rcases hd : ls.dropWhile isBlankLine with _ | ⟨x, xs⟩
    · rfl
    · exfalso
      have hx : isBlankLine x = true := h2 x (by rw [hd]; simp)
      have hhd := List.head?_dropWhile_not isBlankLine ls
      rw [hd] at hhd
      simp at hhd
      exact absurd hx (by simp [hhd])
  exact List.dropWhile_eq_nil_iff.mp h3

theorem trimBlankEdges_append_one (X : List String) (b : String)
    (hb : isBlankLine b = false) :
    trimBlankEdges (X ++ [b]) = X.dropWhile isBlankLine ++ [b] := by
  unfold trimBlankEdges
  have h1 : (X ++ [b]).dropWhile isBlankLine
      = X.dropWhile isBlankLine ++ [b] := by
    rw [List.dropWhile_append]
    by_cases he : (X.dropWhile isBlankLine).isEmpty = true
    · rw [if_pos he]
      rw [List.isEmpty_iff] at he
      rw [he, List.dropWhile_cons, hb]
      rfl
    · rw [if_neg he]
  rw [h1, List.reverse_append]
  simp only [List.reverse_singleton, List.singleton_append,
    List.dropWhile_cons, hb]
  simp

theorem trimBlankEdges_append_two (X : List String) (b : String)
    (hb : isBlankLine b = false) :
    trimBlankEdges (X ++ [b, ""]) = X.dropWhile isBlankLine ++ [b] := by
  unfold trimBlankEdges
  have h1 : (X ++ [b, ""]).dropWhile isBlankLine
      = X.dropWhile isBlankLine ++ [b, ""] := by
    rw [List.dropWhile_append]
    by_cases he : (X.dropWhile isBlankLine).isEmpty = true
    · rw [if_pos he]
      rw [List.isEmpty_iff] at he
      rw [he, List.dropWhile_cons, hb]
      rfl
    · rw [if_neg he]
  rw [h1]
  have h2 : (X.dropWhile isBlankLine ++ [b, ""]).reverse
      = "" :: b :: (X.dropWhile isBlankLine).reverse := by
    simp
  rw [h2, List.dropWhile_cons]
  rw [show isBlankLine "" = true from rfl]
  simp only [if_pos rfl, List.dropWhile_cons, hb]
  simp

theorem joinChNl_ne_nil_of_mem (ls : List (List Char)) (b : List Char)
    (hb : b ∈ ls) (hbe : b ≠ []) : joinChNl ls ≠ [] := by
  induction ls with
  | nil => simp at hb
  | cons x xs ih =>
    cases xs with
    | nil =>
      rcases List.mem_cons.mp hb with h | h
      · subst h; simpa [joinChNl] using hbe
      · simp at h
    | cons y ys =>
      simp [joinChNl]

theorem jsJoinNl_ne_empty_of_mem (ls : List String) (b : String)
    (hb : b ∈ ls) (hbe : isBlankLine b = false) : jsJoinNl ls ≠ "" := by
  intro h
  unfold jsJoinNl at h
  have hdata := congrArg String.data h
  simp only [] at hdata
  have hjoin : joinChNl (ls.map String.data) = [] := hdata
  have hbd : b.data ≠ [] := by
    intro hnil
    rw [Bool.eq_false_iff] at hbe
    apply hbe
    rw [isBlankLine_iff_trimCh, hnil]
    rfl
  exact joinChNl_ne_nil_of_mem (ls.map String.data) b.data
    (List.mem_map.mpr ⟨b, hb, rfl⟩) hbd hjoin

theorem findIdx?_decomp {α : Type} (L : List α) (p : α → Bool) (i : Nat)
    (h : L.findIdx? p = some i) :
    ∃ x, L[i]? = some x ∧ p x = true ∧
      L = L.take i ++ x :: L.drop (i + 1) ∧
      (∀ l ∈ L.take i, p l = false) := by
  rcases List.findIdx?_eq_some_iff_findIdx_eq.mp h with ⟨hlt, hfi⟩
  refine ⟨L[i], List.getElem?_eq_getElem hlt, ?_, ?_, ?_⟩
  · have := @List.findIdx_getElem _ p L (by rw [hfi]; exact hlt)
    simpa [hfi] using this
  · rw [List.getElem_cons_drop L i hlt, List.take_append_drop]
  · intro l hl
    rcases List.mem_take_iff_getElem.mp hl with ⟨k, hk, rfl⟩
    have hki : k < i := lt_of_lt_of_le hk (min_le_left _ _)
    have := @List.not_of_lt_findIdx _ p L k (by rw [hfi]; exact hki)
    exact this

theorem findIdx?_of_decomp {α : Type} (P : List α) (x : α) (rest : List α)
    (p : α → Bool) (hP : ∀ l ∈ P, p l = false) (hx : p x = true) :
    (P ++ x :: rest).findIdx? p = some P.length := by
  induction P with
  | nil => simp [List.findIdx?_cons, hx]
  | cons y ys ih =>
    rw [List.cons_append, List.findIdx?_cons, hP y (by simp)]
    simp only [Bool.false_eq_true, if_false]
    have := ih (fun l hl => hP l (List.mem_cons_of_mem y hl))
    rw [List.findIdx?_succ, this]
    rfl

theorem parseSecAux_nil (t : String) (b : List String) :
    parseSecAux t b [] = [(t, b)] := rfl

theorem parseSecAux_cons_heading (t : String) (b : List String)
    (l : String) (rest : List String) (t2 : String)
    (h : parseHeading l = some t2) :
    parseSecAux t b (l :: rest) = (t, b) :: parseSecAux t2 [] rest := by
  show (match parseHeading l with
    | some t3 => (t, b) :: parseSecAux t3 [] rest
    | none => parseSecAux t (b ++ [l]) rest) = _
  rw [h]

theorem parseSecAux_cons_body (t : String) (b : List String)
    (l : String) (rest : List String) (h : parseHeading l = none) :
    parseSecAux t b (l :: rest) = parseSecAux t (b ++ [l]) rest := by
  show (match parseHeading l with
    | some t3 => (t, b) :: parseSecAux t3 [] rest
    | none => parseSecAux t (b ++ [l]) rest) = _
  rw [h]

theorem parseSecAux_no_heading (xs : List String)
    (hxs : ∀ l ∈ xs, parseHeading l = none) :
    ∀ (t : String) (b : List String) (ys : List String),
      parseSecAux t b (xs ++ ys) = parseSecAux t (b ++ xs) ys := by
  induction xs with
  | nil => intro t b ys; simp
  | cons x xs ih =>
    intro t b ys
    rw [List.cons_append,
      parseSecAux_cons_body t b x (xs ++ ys) (hxs x (by simp)),
      ih (fun l hl => hxs l (List.mem_cons_of_mem x hl)) t (b ++ [x]) ys]
    simp

theorem parseSecAux_find_decomp (S h : String) (M R : List String)
    (hh : parseHeading h = some S)
    (hM : ∀ l ∈ M, parseHeading l = none)
    (hR : R = [] ∨ ∃ r rs, R = r :: rs ∧ isHeadingLine r = true) :
    ∀ (P : List String) (t : String) (b : List String), t ≠ S →
      (∀ l ∈ P, (parseHeading l == some S) = false) →
      (parseSecAux t b (P ++ h :: (M ++ R))).find? (fun q => q.1 == S)
        = some (S, M) := by
  intro P
  induction P with
  | nil =>
    intro t b ht _
    show (parseSecAux t b (h :: (M ++ R))).find? (fun q => q.1 == S) = _
    unfold parseSecAux
    rw [hh]
    rw [List.find?_cons]
    rw [show ((t == S) : Bool) = false from beq_eq_false_iff_ne.mpr ht]
    rw [parseSecAux_no_heading M hM S [] R]
    rcases hR with rfl | ⟨r, rs, rfl, hr⟩
    · show (parseSecAux S ([] ++ M) []).find? (fun q => q.1 == S) = _
      unfold parseSecAux
      simp
    · show (parseSecAux S ([] ++ M) (r :: rs)).find? (fun q => q.1 == S) = _
      unfold parseSecAux
      unfold isHeadingLine at hr
      rcases Option.isSome_iff_exists.mp hr with ⟨t2, ht2⟩
      rw [ht2]
      rw [List.find?_cons]
      simp
  | cons x P' ih =>
    intro t b ht hP
    rw [List.cons_append]
    show (parseSecAux t b (x :: (P' ++ h :: (M ++ R)))).find? _ = _
    unfold parseSecAux
    rcases hx : parseHeading x with _ | t'
    · exact ih t (b ++ [x]) ht (fun l hl => hP l (List.mem_cons_of_mem x hl))
    · have hxS := hP x (by simp)
      rw [hx] at hxS
      have ht' : t' ≠ S := by
        intro hts
        subst hts
        simp at hxS
      rw [List.find?_cons]
      rw [show ((t == S) : Bool) = false from beq_eq_false_iff_ne.mpr ht]
      exact ih t' [] ht' (fun l hl => hP l (List.mem_cons_of_mem x hl))

theorem parseSecAux_find_none (S : String) (L : List String)
    (hL : ∀ l ∈ L, (parseHeading l == some S) = false) :
    ∀ (t : String) (b : List String), t ≠ S →
      (parseSecAux t b L).find? (fun q => q.1 == S) = none := by
  induction L with
  | nil =>
    intro t b ht
    unfold parseSecAux
    rw [List.find?_cons]
    rw [show ((t == S) : Bool) = false from beq_eq_false_iff_ne.mpr ht]
    rfl
  | cons x L' ih =>
    intro t b ht
    unfold parseSecAux
    rcases hx : parseHeading x with _ | t'
    · exact ih (fun l hl => hL l (List.mem_cons_of_mem x hl)) t (b ++ [x]) ht
    · have hxS := hL x (by simp)
      rw [hx] at hxS
      have ht' : t' ≠ S := by
        intro hts
        subst hts
        simp at hxS
      rw [List.find?_cons]
      rw [show ((t == S) : Bool) = false from beq_eq_false_iff_ne.mpr ht]
      exact ih (fun l hl => hL l (List.mem_cons_of_mem x hl)) t' [] ht'

theorem parseHeadingCh_hash2 (cs : List Char) :
    parseHeadingCh ('#' :: '#' :: ' ' :: cs) = some (trimCh cs) := by
  rw [show parseHeadingCh ('#' :: '#' :: ' ' :: cs)
    = some (trimCh (' ' :: cs)) from rfl]
  rw [trimCh_cons_ws ' ' cs rfl]

theorem parseHeading_hash2 (S : String) (hS : jsTrim S = S) :
    parseHeading ("## " ++ S) = some S := by
  unfold parseHeading
  rw [show ("## " ++ S).data = '#' :: '#' :: ' ' :: S.data from by
    rw [String.data_append]; rfl]
  rw [parseHeadingCh_hash2]
  unfold jsTrim at hS
  show some (String.mk (trimCh S.data)) = some S
  exact congrArg some hS

theorem parseHeading_empty_line : parseHeading "" = none := rfl

theorem parseHeading_eq_of_beq {l S : String}
    (h : (parseHeading l == some S) = true) : parseHeading l = some S :=
  eq_of_beq h

theorem heading_none_of_not_isHeadingLine {l : String}
    (h : isHeadingLine l = false) : parseHeading l = none := by
  unfold isHeadingLine at h
  cases hp : parseHeading l with
  | none => rfl
  | some t => rw [hp] at h; simp at h

theorem noNl_hash2 (S : String) (hS : noNl S = true) :
    noNl ("## " ++ S) = true := by
  unfold noNl at hS ⊢
  rw [show ("## " ++ S).data = '#' :: '#' :: ' ' :: S.data from by
    rw [String.data_append]; rfl]
  simpa [List.contains_eq_any_beq] using hS

/-- Structure of `upsertLines L S bullet true`: the result is always a
document `P ++ h :: ((M ++ bullet :: tail) ++ R)` in which `h` is the first
heading line titled `S`, nothing before it is titled `S`, the middle block
`M ++ bullet :: tail` is the new body of section `S` (with `M` taken from the
previous body of this section, if any), and `R` is the rest of the document
starting at the next heading. -/
theorem upsertLines_decomp (L : List String) (S bullet : String)
    (hS : jsTrim S = S) (hSne : S ≠ "") (hSnl : noNl S = true)
    (hLnl : ∀ l ∈ L, noNl l = true)
    (hbHead : parseHeading bullet = none) (hbnl : noNl bullet = true) :
    ∃ (P : List String) (h : String) (M tail R : List String),
      upsertLines L S bullet true = P ++ h :: ((M ++ bullet :: tail) ++ R) ∧
      parseHeading h = some S ∧
      (∀ l ∈ P, (parseHeading l == some S) = false) ∧
      (∀ l ∈ M, parseHeading l = none) ∧
      (tail = [] ∨ tail = [""]) ∧
      (R = [] ∨ ∃ r rs, R = r :: rs ∧ isHeadingLine r = true) ∧
      (M = [] ∨ ∃ M0 : List String,
        LongTermMemory.getSection (jsJoinNl L) S
          = some (jsJoinNl (trimBlankEdges M0)) ∧
        (∀ l ∈ M, l ∈ M0) ∧ (∀ l ∈ M0, l ∈ L) ∧
        (∀ l ∈ M0, parseHeading l = none)) ∧
      (∀ l ∈ P ++ h :: ((M ++ bullet :: tail) ++ R), noNl l = true) := by
  unfold upsertLines
  rcases hfind : L.findIdx? (fun l => parseHeading l == some S) with _ | i
  · -- no heading titled S: append "## S" and the bullet at the end
    simp only []
    rw [if_pos trivial]
    have hnoS := List.findIdx?_eq_none_iff.mp hfind
    refine ⟨dropTrailingBlanks L ++ [""], "## " ++ S, [], [], [], ?_,
      parseHeading_hash2 S hS, ?_, by simp, Or.inl rfl, Or.inl rfl,
      Or.inl rfl, ?_⟩
    · simp
    · intro l hl
      rcases List.mem_append.mp hl with hl | hl
      · exact hnoS l (mem_of_mem_dropTrailingBlanks hl)
      · rcases List.mem_singleton.mp hl with rfl
        rfl
    · intro l hl
      rcases List.mem_append.mp hl with hl | hl
      · rcases List.mem_append.mp hl with hl | hl
        · exact hLnl l (mem_of_mem_dropTrailingBlanks hl)
        · rcases List.mem_singleton.mp hl with rfl
          rfl
      · rcases List.mem_cons.mp hl with rfl | hl
        · exact noNl_hash2 S hSnl
        · rw [List.append_nil, List.nil_append] at hl
          rcases List.mem_cons.mp hl with rfl | hl
          · exact hbnl
          · simp at hl
  · -- the section exists at index i
    rcases findIdx?_decomp L _ i hfind with ⟨h, hgi, hph, hLd, hPfalse⟩
    have hph' : parseHeading h = some S := parseHeading_eq_of_beq hph
    have hhL : h ∈ L := List.getElem?_mem hgi
    have hLne : L ≠ [] := fun hnil => by rw [hnil] at hhL; simp at hhL
    have hpre : L.take (i + 1) = L.take i ++ [h] := by
      rw [List.take_succ, hgi]
      rfl
    have hsecs : parseSections (jsJoinNl L) = parseSecAux "" [] L := by
      unfold parseSections
      rw [jsSplitNl_jsJoinNl L hLne hLnl]
    simp only []
    rcases hfind2 : (L.drop (i + 1)).findIdx? isHeadingLine with _ | j
    · -- no later heading: the section runs to the end of the document
      have hnoHead := List.findIdx?_eq_none_iff.mp hfind2
      refine ⟨L.take i, h, dropTrailingBlanks (L.drop (i + 1)), [], [],
        ?_, hph', hPfalse, ?_, Or.inl rfl, Or.inl rfl, ?_, ?_⟩
      · rw [hpre]
        simp
      · intro l hl
        exact heading_none_of_not_isHeadingLine
          (hnoHead l (mem_of_mem_dropTrailingBlanks hl))
      · right
        refine ⟨L.drop (i + 1), ?_, ?_, ?_, ?_⟩
        · unfold LongTermMemory.getSection
          rw [hsecs]
          have hLsplit : L = L.take i ++ h :: (L.drop (i + 1) ++ []) := by
            rw [List.append_nil]
            exact hLd
          rw [show parseSecAux "" [] L
              = parseSecAux "" [] (L.take i ++ h :: (L.drop (i + 1) ++ []))
              from by rw [← hLsplit]]
          rw [parseSecAux_find_decomp S h (L.drop (i + 1)) [] hph'
            (fun l hl => heading_none_of_not_isHeadingLine (hnoHead l hl))
            (Or.inl rfl) (L.take i) "" [] (Ne.symm hSne) hPfalse]
          rfl
        · exact fun l hl => mem_of_mem_dropTrailingBlanks hl
        · exact fun l hl => List.mem_of_mem_drop hl
        · exact fun l hl => heading_none_of_not_isHeadingLine (hnoHead l hl)
      · intro l hl
        rw [List.append_nil] at hl
        rcases List.mem_append.mp hl with hl | hl
        · exact hLnl l (List.mem_of_mem_take hl)
        · rcases List.mem_cons.mp hl with rfl | hl
          · exact hLnl l hhL
          · rcases List.mem_append.mp hl with hl | hl
            · exact hLnl l
                (List.mem_of_mem_drop (mem_of_mem_dropTrailingBlanks hl))
            · rcases List.mem_cons.mp hl with rfl | hl
              · exact hbnl
              · simp at hl
    · -- a later heading exists at relative index j
      rcases findIdx?_decomp (L.drop (i + 1)) _ j hfind2 with
        ⟨r, hgr, hhr, hAd, hMfalse⟩
      have hdropj : (L.drop (i + 1)).drop j
          = r :: (L.drop (i + 1)).drop (j + 1) := by
        have hjlt : j < (L.drop (i + 1)).length :=
          (List.findIdx?_eq_some_iff_findIdx_eq.mp hfind2).1
        rw [← List.getElem_cons_drop (L.drop (i + 1)) j hjlt]
        have : (L.drop (i + 1))[j] = r := by
          have := List.getElem?_eq_getElem hjlt
          rw [this] at hgr
          exact (Option.some_inj.mp hgr)
        rw [this]
      refine ⟨L.take i, h, dropTrailingBlanks ((L.drop (i + 1)).take j), [""],
        (L.drop (i + 1)).drop j, ?_, hph', hPfalse, ?_, Or.inr rfl,
        ?_, ?_, ?_⟩
      · rw [hpre]
        simp
      · intro l hl
        have hmem := mem_of_mem_dropTrailingBlanks hl
        exact heading_none_of_not_isHeadingLine (hMfalse l hmem)
      · right
        exact ⟨r, (L.drop (i + 1)).drop (j + 1), hdropj, hhr⟩
      · right
        refine ⟨(L.drop (i + 1)).take j, ?_, ?_, ?_, ?_⟩
        · unfold LongTermMemory.getSection
          rw [hsecs]
          have hLsplit : L = L.take i
              ++ h :: ((L.drop (i + 1)).take j ++ (L.drop (i + 1)).drop j) := by
            rw [List.take_append_drop]
            exact hLd
          rw [show parseSecAux "" [] L = parseSecAux "" []
              (L.take i ++ h :: ((L.drop (i + 1)).take j
                ++ (L.drop (i + 1)).drop j)) from by rw [← hLsplit]]
          rw [parseSecAux_find_decomp S h ((L.drop (i + 1)).take j)
            ((L.drop (i + 1)).drop j) hph'
            (fun l hl => heading_none_of_not_isHeadingLine (hMfalse l hl))
            (Or.inr ⟨r, (L.drop (i + 1)).drop (j + 1), hdropj, hhr⟩)
            (L.take i) "" [] (Ne.symm hSne) hPfalse]
          rfl
        · exact fun l hl => mem_of_mem_dropTrailingBlanks hl
        · exact fun l hl =>
            List.mem_of_mem_drop (List.mem_of_mem_take hl)
        · exact fun l hl => heading_none_of_not_isHeadingLine (hMfalse l hl)
      · intro l hl
        rcases List.mem_append.mp hl with hl | hl
        · exact hLnl l (List.mem_of_mem_take hl)
        · rcases List.mem_cons.mp hl with rfl | hl
          · exact hLnl l hhL
          · rcases List.mem_append.mp hl with hl | hl
            · rcases List.mem_append.mp hl with hl | hl
              · exact hLnl l (List.mem_of_mem_drop
                  (List.mem_of_mem_take (mem_of_mem_dropTrailingBlanks hl)))
              · rcases List.mem_cons.mp hl with rfl | hl
                · exact hbnl
                · rcases List.mem_singleton.mp hl with rfl
                  rfl
            · exact hLnl l (List.mem_of_mem_drop (List.mem_of_mem_drop hl))

theorem parseHeading_bullet (F : String) :
    parseHeading ("- " ++ F) = none := rfl

theorem jsJoinNl_eq_empty (ls : List String) (h : jsJoinNl ls = "") :
    ls = [] ∨ ls = [""] := by
  have hdata : joinChNl (ls.map String.data) = [] := congrArg String.data h
  cases ls with
  | nil => exact Or.inl rfl
  | cons x xs =>
    cases xs with
    | nil =>
      right
      have : x.data = [] := hdata
      have : x = "" := String.ext this
      rw [this]
    | cons y ys =>
      exfalso
      simp only [List.map_cons, joinChNl] at hdata
      rcases List.append_eq_nil.mp hdata with ⟨_, h2⟩
      simp at h2

theorem trimBlankEdges_head_nonblank (ls : List String) (x : String)
    (xs : List String) (h : trimBlankEdges ls = x :: xs) :
    isBlankLine x = false := by
  have hsuf : (ls.dropWhile isBlankLine).reverse.dropWhile isBlankLine
      <:+ (ls.dropWhile isBlankLine).reverse := List.dropWhile_suffix _
  have hpre : trimBlankEdges ls <+: ls.dropWhile isBlankLine := by
    unfold trimBlankEdges
    have := List.reverse_prefix.mpr hsuf
    simpa using this
  rw [h] at hpre
  rcases hpre with ⟨t, ht⟩
  have hhead : (ls.dropWhile isBlankLine).head? = some x := by
    rw [← ht]
    rfl
  have := List.head?_dropWhile_not isBlankLine ls
  rw [hhead] at this
  simpa using this

theorem pred_false_of_blank (F l : String)
    (hFnb : LongTermMemory.factNorm F ≠ "")
    (hbl : isBlankLine l = true) :
    (LongTermMemory.lineNorm l == LongTermMemory.factNorm F) = false := by
  apply beq_eq_false_iff_ne.mpr
  rw [lineNorm_blank l hbl]
  exact Ne.symm hFnb

theorem hasFact_false_all_lines (content S F : String) (M0 : List String)
    (hFnb : LongTermMemory.factNorm F ≠ "")
    (hM0nl : ∀ l ∈ M0, noNl l = true)
    (hgold : LongTermMemory.getSection content S
      = some (jsJoinNl (trimBlankEdges M0)))
    (hpre : LongTermMemory.hasFact content S F = false) :
    ∀ l ∈ M0,
      (LongTermMemory.lineNorm l == LongTermMemory.factNorm F) = false := by
  unfold LongTermMemory.hasFact at hpre
  rw [hgold] at hpre
  have hpre2 : (if ((jsJoinNl (trimBlankEdges M0) == "") : Bool) = true
      then false
      else (jsSplitNl (jsJoinNl (trimBlankEdges M0))).any
        (fun line =>
          LongTermMemory.lineNorm line == LongTermMemory.factNorm F))
      = false := hpre
  clear hpre
  by_cases hb : ((jsJoinNl (trimBlankEdges M0) == "") : Bool) = true
  · have hempty : jsJoinNl (trimBlankEdges M0) = "" := eq_of_beq hb
    rcases jsJoinNl_eq_empty _ hempty with hnil | hone
    · intro l hl
      exact pred_false_of_blank F l hFnb (trimBlankEdges_eq_nil M0 hnil l hl)
    · exfalso
      have := trimBlankEdges_head_nonblank M0 "" [] hone
      simp [isBlankLine, jsTrim, trimCh] at this
  · rw [if_neg hb] at hpre2
    have htne : trimBlankEdges M0 ≠ [] := by
      intro hnil
      apply hb
      rw [hnil]
      rfl
    have hsplit : jsSplitNl (jsJoinNl (trimBlankEdges M0))
        = trimBlankEdges M0 :=
      jsSplitNl_jsJoinNl _ htne
        (fun l hl => hM0nl l (mem_of_mem_trimBlankEdges hl))
    rw [hsplit] at hpre2
    have hany : M0.any
        (fun line =>
          LongTermMemory.lineNorm line == LongTermMemory.factNorm F)
        = false := by
      rw [← any_trimBlankEdges M0 (fun l hl => pred_false_of_blank F l hFnb hl)]
      exact hpre2
    intro l hl
    have := List.any_eq_false.mp hany l hl
    simpa using this

/-- Document-level structure of `addFact`'s write: the new document is
`P ++ h :: ((M ++ "- F" :: tail) ++ R)`, where `M` comes from the previous
body of section `S` and (because the fact was not present before the call)
no line of `M` normalizes to the fact. -/
theorem addFact_doc_structure (content S F : String)
    (hS : jsTrim S = S) (hSne : S ≠ "") (hSnl : noNl S = true)
    (hF : noNl F = true) (hFnb : LongTermMemory.factNorm F ≠ "")
    (hpre : LongTermMemory.hasFact content S F = false) :
    ∃ (P : List String) (h : String) (M tail R : List String),
      upsertLines (jsSplitNl content) S ("- " ++ F) true
        = P ++ h :: ((M ++ ("- " ++ F) :: tail) ++ R) ∧
      parseHeading h = some S ∧
      (∀ l ∈ P, (parseHeading l == some S) = false) ∧
      (∀ l ∈ M, parseHeading l = none) ∧
      (tail = [] ∨ tail = [""]) ∧
      (R = [] ∨ ∃ r rs, R = r :: rs ∧ isHeadingLine r = true) ∧
      (∀ l ∈ M,
        (LongTermMemory.lineNorm l == LongTermMemory.factNorm F) = false) ∧
      (∀ l ∈ P ++ h :: ((M ++ ("- " ++ F) :: tail) ++ R), noNl l = true) := by
  rcases upsertLines_decomp (jsSplitNl content) S ("- " ++ F) hS hSne hSnl
      (fun l hl => noNl_of_mem_jsSplitNl content l hl)
      (parseHeading_bullet F) (noNl_bullet F hF) with
    ⟨P, h, M, tail, R, hE1, hE2, hE3, hE4, hE5, hE6, hE7, hE8⟩
  refine ⟨P, h, M, tail, R, hE1, hE2, hE3, hE4, hE5, hE6, ?_, hE8⟩
  rcases hE7 with rfl | ⟨M0, hgold, hMM0, hM0L, _⟩
  · intro l hl
    simp at hl
  · rw [jsJoinNl_jsSplitNl content] at hgold
    have hall := hasFact_false_all_lines content S F M0 hFnb
      (fun l hl => noNl_of_mem_jsSplitNl content l (hM0L l hl)) hgold hpre
    intro l hl
    exact hall l (hMM0 l hl)

/-- Claim C2: for a section name S and fact F, starting from any state in
which no bullet in section S normalizes (trim + lowercase) to F, calling
`addFact(S, F, skipDuplicates = true)` twice reports "added" then
"not added", the second call performs no write (the returned content is the
first call's content, unchanged), and afterwards `getSection(S)` contains
exactly one bullet equal to F (the line `- F`, which is the last line of the
section body); the second call may use any case or surrounding-whitespace
variant F2 of F.  Sanity hypotheses: S is a trimmed, nonempty, single-line
section name, F is a single-line fact with a non-whitespace character. -/
theorem c2_addFact_dedup_idempotent (content S F F2 : String)
    (hS : jsTrim S = S) (hSne : S ≠ "") (hSnl : noNl S = true)
    (hF : noNl F = true) (hFnb : LongTermMemory.factNorm F ≠ "")
    (hvar : LongTermMemory.factNorm F2 = LongTermMemory.factNorm F)
    (hpre : LongTermMemory.hasFact content S F = false) :
    (LongTermMemory.addFact content S F true).1 = true ∧
    LongTermMemory.addFact (LongTermMemory.addFact content S F true).2 S F2 true
      = (false, (LongTermMemory.addFact content S F true).2) ∧
    ∃ body,
      LongTermMemory.getSection (LongTermMemory.addFact content S F true).2 S
        = some body ∧
      ((jsSplitNl body).filter (fun line =>
        LongTermMemory.lineNorm line == LongTermMemory.factNorm F)).length
          = 1 ∧
      (jsSplitNl body).getLast? = some ("- " ++ F) := by
  rcases addFact_doc_structure content S F hS hSne hSnl hF hFnb hpre with
    ⟨P, h, M, tail, R, hE1, hE2, hE3, hE4, hE5, hE6, hM, hE8⟩
  have hfc : LongTermMemory.addFact content S F true
      = (true, jsJoinNl (P ++ h :: ((M ++ ("- " ++ F) :: tail) ++ R))) := by
    unfold LongTermMemory.addFact appendToSection
    rw [hpre, hE1]
    simp
  have hL'ne : P ++ h :: ((M ++ ("- " ++ F) :: tail) ++ R) ≠ [] := by simp
  have hsplit2 : jsSplitNl (jsJoinNl (P ++ h :: ((M ++ ("- " ++ F) :: tail) ++ R)))
      = P ++ h :: ((M ++ ("- " ++ F) :: tail) ++ R) :=
    jsSplitNl_jsJoinNl _ hL'ne hE8
  have hM'none : ∀ l ∈ M ++ ("- " ++ F) :: tail, parseHeading l = none := by
    intro l hl
    rcases List.mem_append.mp hl with hl | hl
    · exact hE4 l hl
    · rcases List.mem_cons.mp hl with rfl | hl
      · exact parseHeading_bullet F
      · rcases hE5 with rfl | rfl
        · simp at hl
        · rcases List.mem_singleton.mp hl with rfl
          rfl
  have hfound : LongTermMemory.getSection
      (jsJoinNl (P ++ h :: ((M ++ ("- " ++ F) :: tail) ++ R))) S
      = some (jsJoinNl (trimBlankEdges (M ++ ("- " ++ F) :: tail))) := by
    unfold LongTermMemory.getSection parseSections
    rw [hsplit2]
    rw [parseSecAux_find_decomp S h (M ++ ("- " ++ F) :: tail) R hE2 hM'none
      hE6 P "" [] (Ne.symm hSne) hE3]
    rfl
  have htbe : trimBlankEdges (M ++ ("- " ++ F) :: tail)
      = M.dropWhile isBlankLine ++ ["- " ++ F] := by
    rcases hE5 with rfl | rfl
    · exact trimBlankEdges_append_one M ("- " ++ F) (isBlankLine_bullet F)
    · exact trimBlankEdges_append_two M ("- " ++ F) (isBlankLine_bullet F)
  have hMnl : ∀ l ∈ M, noNl l = true := by
    intro l hl
    exact hE8 l (List.mem_append.mpr (Or.inr (List.mem_cons.mpr (Or.inr
      (List.mem_append.mpr (Or.inl (List.mem_append.mpr (Or.inl hl))))))))
  have hZfalse : ∀ l ∈ M.dropWhile isBlankLine,
      (LongTermMemory.lineNorm l == LongTermMemory.factNorm F) = false :=
    fun l hl => hM l (mem_of_mem_dropWhile hl)
  have hround : jsSplitNl (jsJoinNl (M.dropWhile isBlankLine ++ ["- " ++ F]))
      = M.dropWhile isBlankLine ++ ["- " ++ F] := by
    apply jsSplitNl_jsJoinNl _ (by simp)
    intro l hl
    rcases List.mem_append.mp hl with hl | hl
    · exact hMnl l (mem_of_mem_dropWhile hl)
    · rcases List.mem_singleton.mp hl with rfl
      exact noNl_bullet F hF
  have hbodyne : jsJoinNl (M.dropWhile isBlankLine ++ ["- " ++ F]) ≠ "" :=
    jsJoinNl_ne_empty_of_mem _ ("- " ++ F) (by simp) (isBlankLine_bullet F)
  have hpredbul : (LongTermMemory.lineNorm ("- " ++ F)
      == LongTermMemory.factNorm F) = true := by
    rw [lineNorm_bullet]
    exact beq_self_eq_true _
  have hpredbul2 : (LongTermMemory.lineNorm ("- " ++ F)
      == LongTermMemory.factNorm F2) = true := by
    rw [lineNorm_bullet, hvar]
    exact beq_self_eq_true _
  have hhas2 : LongTermMemory.hasFact
      (jsJoinNl (P ++ h :: ((M ++ ("- " ++ F) :: tail) ++ R))) S F2 = true := by
    unfold LongTermMemory.hasFact
    rw [hfound, htbe]
    show (if ((jsJoinNl (M.dropWhile isBlankLine ++ ["- " ++ F]) == "") : Bool)
          = true then false
      else (jsSplitNl (jsJoinNl (M.dropWhile isBlankLine ++ ["- " ++ F]))).any
        (fun line =>
          LongTermMemory.lineNorm line == LongTermMemory.factNorm F2)) = true
    rw [if_neg (by
      intro hbe
      exact hbodyne (eq_of_beq hbe))]
    rw [hround, List.any_append]
    simp only [List.any_cons, List.any_nil, hpredbul2]
    simp
  constructor
  · rw [hfc]
  constructor
  · rw [hfc]
    show LongTermMemory.addFact
      (jsJoinNl (P ++ h :: ((M ++ ("- " ++ F) :: tail) ++ R))) S F2 true = _
    unfold LongTermMemory.addFact
    rw [hhas2]
    simp
  · refine ⟨jsJoinNl (M.dropWhile isBlankLine ++ ["- " ++ F]), ?_, ?_, ?_⟩
    · rw [hfc]
      show LongTermMemory.getSection
        (jsJoinNl (P ++ h :: ((M ++ ("- " ++ F) :: tail) ++ R))) S = _
      rw [hfound, htbe]
    · rw [hround, List.filter_append]
      rw [List.filter_eq_nil_iff.mpr (fun a ha => by
        rw [hZfalse a ha]
        simp)]
      simp only [List.nil_append, List.filter_cons, hpredbul]
      simp
    · rw [hround]
      exact List.getLast?_concat _

theorem c2_addFact_dedup_idempotent_witness :
    jsTrim "People" = "People" ∧ "People" ≠ "" ∧ noNl "People" = true ∧
    noNl "Dog: Max" = true ∧ LongTermMemory.factNorm "Dog: Max" ≠ "" ∧
    LongTermMemory.factNorm "dog: max" = LongTermMemory.factNorm "Dog: Max" ∧
    LongTermMemory.hasFact "# T\n\n## People\n\n## Facts\n\n" "People"
      "Dog: Max" = false ∧
    ((LongTermMemory.addFact "# T\n\n## People\n\n## Facts\n\n" "People"
        "Dog: Max" true).1 = true ∧
      LongTermMemory.addFact
        (LongTermMemory.addFact "# T\n\n## People\n\n## Facts\n\n" "People"
          "Dog: Max" true).2 "People" "dog: max" true
        = (false,
            (LongTermMemory.addFact "# T\n\n## People\n\n## Facts\n\n" "People"
              "Dog: Max" true).2) ∧
      ∃ body,
        LongTermMemory.getSection
          (LongTermMemory.addFact "# T\n\n## People\n\n## Facts\n\n" "People"
            "Dog: Max" true).2 "People" = some body ∧
        ((jsSplitNl body).filter (fun line =>
          LongTermMemory.lineNorm line
            == LongTermMemory.factNorm "Dog: Max")).length = 1 ∧
        (jsSplitNl body).getLast? = some ("- " ++ "Dog: Max")) :=
  ⟨by decide, by decide, by decide, by decide, by decide, by decide, by decide,
    c2_addFact_dedup_idempotent "# T\n\n## People\n\n## Facts\n\n" "People"
      "Dog: Max" "dog: max" (by decide) (by decide) (by decide) (by decide)
      (by decide) (by decide) (by decide)⟩

/-! ## Claim C7: `removeFact` after `addFact` -/

theorem removeFactLines_some (lines : List String) (title fact : String)
    (i : Nat)
    (hfind : lines.findIdx? (fun l => parseHeading l == some title)
      = some i) :
    LongTermMemory.removeFactLines lines title fact
      = match ((lines.drop (i + 1)).take
          (match (lines.drop (i + 1)).findIdx? isHeadingLine with
            | some j => j
            | none => (lines.drop (i + 1)).length)).findIdx?
          (fun l =>
            LongTermMemory.lineNorm l == LongTermMemory.factNorm fact) with
        | none => (false, lines)
        | some k =>
          (true, lines.take (i + 1 + k) ++ lines.drop (i + 1 + k + 1)) := by
  unfold LongTermMemory.removeFactLines
  rw [hfind]

/-- Claim C7: after `addFact(S, F)` (default `skipDuplicates = false`),
`removeFact(S, F)` succeeds: it reports "removed", deletes the single bullet
line, and the section no longer has the fact (`hasFact` is false on the
result); calling `removeFact(S, F)` again returns "not found" and leaves the
file unchanged.  Hypotheses as in C2: single-line trimmed nonempty section
name, single-line nonblank fact, and the fact not already present. -/
theorem c7_removeFact_after_addFact (content S F : String)
    (hS : jsTrim S = S) (hSne : S ≠ "") (hSnl : noNl S = true)
    (hF : noNl F = true) (hFnb : LongTermMemory.factNorm F ≠ "")
    (hpre : LongTermMemory.hasFact content S F = false) :
    (LongTermMemory.addFact content S F false).1 = true ∧
    (LongTermMemory.removeFact
      (LongTermMemory.addFact content S F false).2 S F).1 = true ∧
    LongTermMemory.hasFact
      (LongTermMemory.removeFact
        (LongTermMemory.addFact content S F false).2 S F).2 S F = false ∧
    LongTermMemory.removeFact
      (LongTermMemory.removeFact
        (LongTermMemory.addFact content S F false).2 S F).2 S F
      = (false,
          (LongTermMemory.removeFact
            (LongTermMemory.addFact content S F false).2 S F).2) := by
  rcases addFact_doc_structure content S F hS hSne hSnl hF hFnb hpre with
    ⟨P, h, M, tail, R, hE1, hE2, hE3, hE4, hE5, hE6, hM, hE8⟩
  have hfc : LongTermMemory.addFact content S F false
      = (true, jsJoinNl (P ++ h :: ((M ++ ("- " ++ F) :: tail) ++ R))) := by
    unfold LongTermMemory.addFact appendToSection
    rw [hE1]
    simp
  have hL'ne : P ++ h :: ((M ++ ("- " ++ F) :: tail) ++ R) ≠ [] := by simp
  have hsplit2 : jsSplitNl
      (jsJoinNl (P ++ h :: ((M ++ ("- " ++ F) :: tail) ++ R)))
      = P ++ h :: ((M ++ ("- " ++ F) :: tail) ++ R) :=
    jsSplitNl_jsJoinNl _ hL'ne hE8
  have hpSh : (parseHeading h == some S) = true := by
    rw [hE2]
    exact beq_self_eq_true _
  have hM'head : ∀ l ∈ M ++ ("- " ++ F) :: tail, isHeadingLine l = false := by
    intro l hl
    unfold isHeadingLine
    rcases List.mem_append.mp hl with hl | hl
    · rw [hE4 l hl]; rfl
    · rcases List.mem_cons.mp hl with rfl | hl
      · rw [parseHeading_bullet F]; rfl
      · rcases hE5 with rfl | rfl
        · simp at hl
        · rcases List.mem_singleton.mp hl with rfl
          rfl
  have hpredbul : (LongTermMemory.lineNorm ("- " ++ F)
      == LongTermMemory.factNorm F) = true := by
    rw [lineNorm_bullet]
    exact beq_self_eq_true _
  have hMfalse : ∀ l ∈ M,
      (LongTermMemory.lineNorm l == LongTermMemory.factNorm F) = false := hM
  -- the line-level removal
  have hafter : (P ++ h :: ((M ++ ("- " ++ F) :: tail) ++ R)).drop
      (P.length + 1) = (M ++ ("- " ++ F) :: tail) ++ R := by
    show (P ++ (h :: ((M ++ ("- " ++ F) :: tail) ++ R))).drop
      (P.length + 1) = _
    rw [List.drop_append 1]
    rfl
  have hrml : LongTermMemory.removeFactLines
      (P ++ h :: ((M ++ ("- " ++ F) :: tail) ++ R)) S F
      = (true, (P ++ h :: M) ++ (tail ++ R)) := by
    rw [removeFactLines_some _ S F P.length
      (findIdx?_of_decomp P h _ _ hE3 hpSh)]
    rw [hafter]
    have hstop : (match ((M ++ ("- " ++ F) :: tail) ++ R).findIdx?
          isHeadingLine with
        | some j => j
        | none => ((M ++ ("- " ++ F) :: tail) ++ R).length)
        = (M ++ ("- " ++ F) :: tail).length := by
      rcases hE6 with rfl | ⟨r, rs, rfl, hr⟩
      · rw [List.findIdx?_eq_none_iff.mpr (by
          intro x hx
          rw [List.append_nil] at hx
          exact hM'head x hx)]
        rw [List.append_nil]
      · rw [findIdx?_of_decomp _ r rs _ hM'head hr]
    rw [hstop]
    rw [List.take_left]
    rw [findIdx?_of_decomp M ("- " ++ F) tail _ hMfalse hpredbul]
    show (true, (P ++ h :: ((M ++ ("- " ++ F) :: tail) ++ R)).take
        (P.length + 1 + M.length)
      ++ (P ++ h :: ((M ++ ("- " ++ F) :: tail) ++ R)).drop
        (P.length + 1 + M.length + 1)) = _
    have htake : (P ++ h :: ((M ++ ("- " ++ F) :: tail) ++ R)).take
        (P.length + 1 + M.length) = P ++ h :: M := by
      have hshape : P ++ h :: ((M ++ ("- " ++ F) :: tail) ++ R)
          = (P ++ h :: M) ++ (("- " ++ F) :: (tail ++ R)) := by
        simp
      rw [hshape]
      exact List.take_left' (by simp; omega)
    have hdrop : (P ++ h :: ((M ++ ("- " ++ F) :: tail) ++ R)).drop
        (P.length + 1 + M.length + 1) = tail ++ R := by
      have hshape : P ++ h :: ((M ++ ("- " ++ F) :: tail) ++ R)
          = ((P ++ h :: M) ++ [("- " ++ F)]) ++ (tail ++ R) := by
        simp
      rw [hshape]
      exact List.drop_left' (by simp; omega)
    rw [htake, hdrop]
  have hL3nl : ∀ l ∈ (P ++ h :: M) ++ (tail ++ R), noNl l = true := by
    intro l hl
    apply hE8 l
    rcases List.mem_append.mp hl with hl | hl
    · rcases List.mem_append.mp hl with hl | hl
      · exact List.mem_append.mpr (Or.inl hl)
      · rcases List.mem_cons.mp hl with rfl | hl
        · exact List.mem_append.mpr (Or.inr (List.mem_cons.mpr (Or.inl rfl)))
        · exact List.mem_append.mpr (Or.inr (List.mem_cons.mpr (Or.inr
            (List.mem_append.mpr (Or.inl (List.mem_append.mpr (Or.inl hl)))))))
    · rcases List.mem_append.mp hl with hl | hl
      · exact List.mem_append.mpr (Or.inr (List.mem_cons.mpr (Or.inr
          (List.mem_append.mpr (Or.inl (List.mem_append.mpr (Or.inr
            (List.mem_cons.mpr (Or.inr hl)))))))))
      · exact List.mem_append.mpr (Or.inr (List.mem_cons.mpr (Or.inr
          (List.mem_append.mpr (Or.inr hl)))))
  have hL3shape : (P ++ h :: M) ++ (tail ++ R)
      = P ++ h :: ((M ++ tail) ++ R) := by
    simp
  have hrm : LongTermMemory.removeFact
      (jsJoinNl (P ++ h :: ((M ++ ("- " ++ F) :: tail) ++ R))) S F
      = (true, jsJoinNl ((P ++ h :: M) ++ (tail ++ R))) := by
    unfold LongTermMemory.removeFact
    rw [hsplit2, hrml]
    rfl
  have hL3ne : (P ++ h :: M) ++ (tail ++ R) ≠ [] := by simp
  have hsplit3 : jsSplitNl (jsJoinNl ((P ++ h :: M) ++ (tail ++ R)))
      = (P ++ h :: M) ++ (tail ++ R) :=
    jsSplitNl_jsJoinNl _ hL3ne hL3nl
  have hMt_none : ∀ l ∈ M ++ tail, parseHeading l = none := by
    intro l hl
    rcases List.mem_append.mp hl with hl | hl
    · exact hE4 l hl
    · rcases hE5 with rfl | rfl
      · simp at hl
      · rcases List.mem_singleton.mp hl with rfl
        rfl
  have hMt_false : ∀ l ∈ M ++ tail,
      (LongTermMemory.lineNorm l == LongTermMemory.factNorm F) = false := by
    intro l hl
    rcases List.mem_append.mp hl with hl | hl
    · exact hMfalse l hl
    · rcases hE5 with rfl | rfl
      · simp at hl
      · rcases List.mem_singleton.mp hl with rfl
        exact pred_false_of_blank F "" hFnb rfl
  have hfound3 : LongTermMemory.getSection
      (jsJoinNl ((P ++ h :: M) ++ (tail ++ R))) S
      = some (jsJoinNl (trimBlankEdges (M ++ tail))) := by
    unfold LongTermMemory.getSection parseSections
    rw [hsplit3, hL3shape]
    rw [parseSecAux_find_decomp S h (M ++ tail) R hE2 hMt_none hE6 P "" []
      (Ne.symm hSne) hE3]
    rfl
  have hhas3 : LongTermMemory.hasFact
      (jsJoinNl ((P ++ h :: M) ++ (tail ++ R))) S F = false := by
    unfold LongTermMemory.hasFact
    rw [hfound3]
    show (if ((jsJoinNl (trimBlankEdges (M ++ tail)) == "") : Bool) = true
        then false
      else (jsSplitNl (jsJoinNl (trimBlankEdges (M ++ tail)))).any
        (fun line =>
          LongTermMemory.lineNorm line == LongTermMemory.factNorm F)) = false
    by_cases hb : ((jsJoinNl (trimBlankEdges (M ++ tail)) == "") : Bool) = true
    · rw [if_pos hb]
    · rw [if_neg hb]
      have htne : trimBlankEdges (M ++ tail) ≠ [] := by
        intro hnil
        apply hb
        rw [hnil]
        rfl
      rw [jsSplitNl_jsJoinNl _ htne (fun l hl => by
        have hmem := mem_of_mem_trimBlankEdges hl
        rcases List.mem_append.mp hmem with hm | hm
        · exact hL3nl l (List.mem_append.mpr (Or.inl
            (List.mem_append.mpr (Or.inr (List.mem_cons.mpr (Or.inr hm))))))
        · exact hL3nl l (List.mem_append.mpr (Or.inr
            (List.mem_append.mpr (Or.inl hm)))))]
      rw [List.any_eq_false]
      intro x hx
      rw [hMt_false x (mem_of_mem_trimBlankEdges hx)]
      simp
  have hrml3 : LongTermMemory.removeFactLines
      ((P ++ h :: M) ++ (tail ++ R)) S F
      = (false, (P ++ h :: M) ++ (tail ++ R)) := by
    rw [hL3shape]
    rw [removeFactLines_some _ S F P.length
      (findIdx?_of_decomp P h _ _ hE3 hpSh)]
    have hafter3 : (P ++ h :: ((M ++ tail) ++ R)).drop (P.length + 1)
        = (M ++ tail) ++ R := by
      show (P ++ (h :: ((M ++ tail) ++ R))).drop (P.length + 1) = _
      rw [List.drop_append 1]
      rfl
    rw [hafter3]
    have hMtHead : ∀ l ∈ M ++ tail, isHeadingLine l = false := by
      intro l hl
      unfold isHeadingLine
      rw [hMt_none l hl]
      rfl
    have hstop : (match ((M ++ tail) ++ R).findIdx? isHeadingLine with
        | some j => j
        | none => ((M ++ tail) ++ R).length) = (M ++ tail).length := by
      rcases hE6 with rfl | ⟨r, rs, rfl, hr⟩
      · rw [List.findIdx?_eq_none_iff.mpr (by
          intro x hx
          rw [List.append_nil] at hx
          exact hMtHead x hx)]
        rw [List.append_nil]
      · rw [findIdx?_of_decomp _ r rs _ hMtHead hr]
    rw [hstop]
    rw [List.take_left]
    rw [List.findIdx?_eq_none_iff.mpr hMt_false]
  constructor
  · rw [hfc]
  constructor
  · rw [hfc]
    show (LongTermMemory.removeFact
      (jsJoinNl (P ++ h :: ((M ++ ("- " ++ F) :: tail) ++ R))) S F).1 = true
    rw [hrm]
  constructor
  · rw [hfc]
    show LongTermMemory.hasFact
      (LongTermMemory.removeFact
        (jsJoinNl (P ++ h :: ((M ++ ("- " ++ F) :: tail) ++ R))) S F).2 S F
      = false
    rw [hrm]
    exact hhas3
  · rw [hfc]
    show LongTermMemory.removeFact
      (LongTermMemory.removeFact
        (jsJoinNl (P ++ h :: ((M ++ ("- " ++ F) :: tail) ++ R))) S F).2 S F
      = _
    rw [hrm]
    show LongTermMemory.removeFact
      (jsJoinNl ((P ++ h :: M) ++ (tail ++ R))) S F = _
    unfold LongTermMemory.removeFact
    rw [hsplit3, hrml3]
    rfl

theorem c7_removeFact_after_addFact_witness :
    jsTrim "People" = "People" ∧ "People" ≠ "" ∧ noNl "People" = true ∧
    noNl "Dog: Max" = true ∧ LongTermMemory.factNorm "Dog: Max" ≠ "" ∧
    LongTermMemory.hasFact "# T\n\n## People\n\n## Facts\n\n" "People"
      "Dog: Max" = false ∧
    ((LongTermMemory.addFact "# T\n\n## People\n\n## Facts\n\n" "People"
        "Dog: Max" false).1 = true ∧
      (LongTermMemory.removeFact
        (LongTermMemory.addFact "# T\n\n## People\n\n## Facts\n\n" "People"
          "Dog: Max" false).2 "People" "Dog: Max").1 = true ∧
      LongTermMemory.hasFact
        (LongTermMemory.removeFact
          (LongTermMemory.addFact "# T\n\n## People\n\n## Facts\n\n" "People"
            "Dog: Max" false).2 "People" "Dog: Max").2 "People" "Dog: Max"
        = false ∧
      LongTermMemory.removeFact
        (LongTermMemory.removeFact
          (LongTermMemory.addFact "# T\n\n## People\n\n## Facts\n\n" "People"
            "Dog: Max" false).2 "People" "Dog: Max").2 "People" "Dog: Max"
        = (false,
            (LongTermMemory.removeFact
              (LongTermMemory.addFact "# T\n\n## People\n\n## Facts\n\n"
                "People" "Dog: Max" false).2 "People" "Dog: Max").2)) :=
  ⟨by decide, by decide, by decide, by decide, by decide, by decide,
    c7_removeFact_after_addFact "# T\n\n## People\n\n## Facts\n\n" "People"
      "Dog: Max" (by decide) (by decide) (by decide) (by decide) (by decide)
      (by decide)⟩

/-! ## DailyNotes (src/memory/DailyNotes.ts)

`formatDate` / `formatTime` live in the missing `src/utils/markdown.ts`, so
the date (`YYYY-MM-DD`) and time (`HH:MM`) strings are injected as arguments;
everything else below is translated from `DailyNotes.ts`. -/

namespace DailyNotes

/-- `createInitialContent(date)` (src/memory/DailyNotes.ts): the default
4-section skeleton for a new daily file. -/
def createInitialContent (dateStr : String) : String :=
  "# " ++ dateStr
    ++ "\n\n## Session Notes\n\n## Decisions Made\n\n## Ideas\n\n## Tasks\n\n"

/-- The per-line reading of `sectionPattern` = `^##\s+{escaped section}\s*$`
(multiline flag: anchored to one line): `##`, at least one whitespace, then
the literal section name, then only whitespace.  Greedy `\s+` matches the JS
regex exactly when the section name neither starts nor ends with whitespace
(the theorems assume the name is trimmed). -/
def matchesSectionHeading (sectionName line : String) : Bool :=
  match line.data with
  | '#' :: '#' :: rest =>
    if (rest.dropWhile isWsChar).length = rest.length then false
    else if sectionName.data.isPrefixOf (rest.dropWhile isWsChar) then
      ((rest.dropWhile isWsChar).drop sectionName.data.length).all isWsChar
    else false
  | _ => false

/-- `/^##\s+/` — the next-section scan inside `addEntry`. -/
def isNextSectionHeading (line : String) : Bool :=
  match line.data with
  | '#' :: '#' :: c :: _ => isWsChar c
  | _ => false

/-- The `while (insertIndex > 0 && lines[insertIndex-1].trim() === '')`
loop: back the insertion point over trailing blank lines. -/
def backBlanks (lines : List String) : Nat → Nat
  | 0 => 0
  | i + 1 =>
    if isBlankLine (lines.getD i "") then backBlanks lines i else i + 1

/-- The insert-position computation of `addEntry`: the line index of the next
section heading after the target section, or the end of the file. -/
def insertIndexOf (sectionName : String) (lines : List String) : Nat :=
  match lines.findIdx? (matchesSectionHeading sectionName) with
  | none => lines.length
  | some i =>
    match (lines.drop (i + 1)).findIdx? isNextSectionHeading with
    | some j => i + 1 + j
    | none => lines.length

/-- The `if (!sectionPattern.test(fileContent))` step of `addEntry`: append
a `## section` heading at the end when the section is absent. -/
def ensureSection (sectionName fileContent0 : String) : String :=
  if (jsSplitNl fileContent0).any (matchesSectionHeading sectionName)
  then fileContent0
  else jsTrimEnd fileContent0 ++ "\n\n## " ++ sectionName ++ "\n"

/-- `addEntry(content, section)` (src/memory/DailyNotes.ts): `ensureToday`
(create the skeleton when no file exists for today), build
`- [HH:MM] content`, add the section heading if absent, find the insertion
point before the next section (or end of file), back over trailing blank
lines, splice the entry in, and join. -/
def addEntry (dateStr timeStr : String) (existing : Option String)
    (content sectionName : String) : String :=
  let fileContent := ensureSection sectionName
    (match existing with
      | none => createInitialContent dateStr
      | some c => c)
  let lines := jsSplitNl fileContent
  let k := backBlanks lines (insertIndexOf sectionName lines)
  jsJoinNl (lines.take k ++ ("- [" ++ timeStr ++ "] " ++ content) :: lines.drop k)

end DailyNotes

/-! ## Claim C9: `addEntry` on a fresh day -/

theorem noNl_data_append (a b : String) (ha : noNl a = true)
    (hb : noNl b = true) : noNl (a ++ b) = true := by
  unfold noNl at ha hb ⊢
  rw [String.data_append]
  simp only [List.contains_eq_any_beq, List.any_append] at ha hb ⊢
  simp only [Bool.not_eq_true', Bool.or_eq_false_iff]
  constructor
  · simpa using ha
  · simpa using hb

theorem skeleton_join (d : String) :
    DailyNotes.createInitialContent d
      = jsJoinNl ["# " ++ d, "", "## Session Notes", "", "## Decisions Made",
          "", "## Ideas", "", "## Tasks", "", ""] := by
  apply String.ext
  show (("# " ++ d)
      ++ "\n\n## Session Notes\n\n## Decisions Made\n\n## Ideas\n\n## Tasks\n\n").data
    = _
  rw [String.data_append]
  show ("# " ++ d).data
      ++ ("\n\n## Session Notes\n\n## Decisions Made\n\n## Ideas\n\n## Tasks\n\n" : String).data
    = ("# " ++ d).data ++ '\n' :: joinChNl (List.map String.data
        ["", "## Session Notes", "", "## Decisions Made", "", "## Ideas", "",
          "## Tasks", "", ""])
  exact congrArg (fun l => ("# " ++ d).data ++ l) (by decide)

theorem skeleton_split (d : String) (hd : noNl d = true) :
    jsSplitNl (DailyNotes.createInitialContent d)
      = ["# " ++ d, "", "## Session Notes", "", "## Decisions Made", "",
          "## Ideas", "", "## Tasks", "", ""] := by
  rw [skeleton_join d]
  apply jsSplitNl_jsJoinNl _ (by simp)
  intro l hl
  have hhead : noNl ("# " ++ d) = true := noNl_data_append "# " d (by decide) hd
  rcases List.mem_cons.mp hl with rfl | hl
  · exact hhead
  · exact (by decide :
      ∀ x ∈ ["", "## Session Notes", "", "## Decisions Made", "", "## Ideas",
        "", "## Tasks", "", ""], noNl x = true) l hl

theorem matchesSectionHeading_hash1 (S d : String) :
    DailyNotes.matchesSectionHeading S ("# " ++ d) = false := rfl

theorem isNextSectionHeading_hash1 (d : String) :
    DailyNotes.isNextSectionHeading ("# " ++ d) = false := rfl

theorem addEntry_none_eq (d t C S : String) :
    DailyNotes.addEntry d t none C S
      = jsJoinNl ((jsSplitNl (DailyNotes.ensureSection S
            (DailyNotes.createInitialContent d))).take
          (DailyNotes.backBlanks
            (jsSplitNl (DailyNotes.ensureSection S
              (DailyNotes.createInitialContent d)))
            (DailyNotes.insertIndexOf S
              (jsSplitNl (DailyNotes.ensureSection S
                (DailyNotes.createInitialContent d)))))
        ++ ("- [" ++ t ++ "] " ++ C) ::
          (jsSplitNl (DailyNotes.ensureSection S
            (DailyNotes.createInitialContent d))).drop
          (DailyNotes.backBlanks
            (jsSplitNl (DailyNotes.ensureSection S
              (DailyNotes.createInitialContent d)))
            (DailyNotes.insertIndexOf S
              (jsSplitNl (DailyNotes.ensureSection S
                (DailyNotes.createInitialContent d)))))) := rfl

theorem addEntry_none_sessionNotes (d t C : String) (hd : noNl d = true) :
    DailyNotes.addEntry d t none C "Session Notes"
      = jsJoinNl ["# " ++ d, "", "## Session Notes", "- [" ++ t ++ "] " ++ C,
          "", "## Decisions Made", "", "## Ideas", "", "## Tasks", "", ""] := by
  have hsk := skeleton_split d hd
  have hens : DailyNotes.ensureSection "Session Notes"
      (DailyNotes.createInitialContent d)
      = DailyNotes.createInitialContent d := by
    unfold DailyNotes.ensureSection
    rw [hsk]
    rw [if_pos (by
      rw [List.any_cons, matchesSectionHeading_hash1]
      decide)]
  have hfi : List.findIdx? (DailyNotes.matchesSectionHeading "Session Notes")
      ["# " ++ d, "", "## Session Notes", "", "## Decisions Made", "",
        "## Ideas", "", "## Tasks", "", ""] = some 2 := by
    rw [List.findIdx?_cons, if_neg (by rw [matchesSectionHeading_hash1]; simp)]
    decide
  have hidx : DailyNotes.insertIndexOf "Session Notes"
      ["# " ++ d, "", "## Session Notes", "", "## Decisions Made", "",
        "## Ideas", "", "## Tasks", "", ""] = 4 := by
    unfold DailyNotes.insertIndexOf
    rw [hfi]
    rfl
  rw [addEntry_none_eq]
  rw [hens, hsk, hidx]
  rfl

theorem addEntry_none_decisionsMade (d t C : String) (hd : noNl d = true) :
    DailyNotes.addEntry d t none C "Decisions Made"
      = jsJoinNl ["# " ++ d, "", "## Session Notes", "", "## Decisions Made",
          "- [" ++ t ++ "] " ++ C, "", "## Ideas", "", "## Tasks", "", ""] := by
  have hsk := skeleton_split d hd
  have hens : DailyNotes.ensureSection "Decisions Made"
      (DailyNotes.createInitialContent d)
      = DailyNotes.createInitialContent d := by
    unfold DailyNotes.ensureSection
    rw [hsk]
    rw [if_pos (by
      rw [List.any_cons, matchesSectionHeading_hash1]
      decide)]
  have hfi : List.findIdx? (DailyNotes.matchesSectionHeading "Decisions Made")
      ["# " ++ d, "", "## Session Notes", "", "## Decisions Made", "",
        "## Ideas", "", "## Tasks", "", ""] = some 4 := by
    rw [List.findIdx?_cons, if_neg (by rw [matchesSectionHeading_hash1]; simp)]
    decide
  have hidx : DailyNotes.insertIndexOf "Decisions Made"
      ["# " ++ d, "", "## Session Notes", "", "## Decisions Made", "",
        "## Ideas", "", "## Tasks", "", ""] = 6 := by
    unfold DailyNotes.insertIndexOf
    rw [hfi]
    rfl
  rw [addEntry_none_eq]
  rw [hens, hsk, hidx]
  rfl

theorem addEntry_none_ideas (d t C : String) (hd : noNl d = true) :
    DailyNotes.addEntry d t none C "Ideas"
      = jsJoinNl ["# " ++ d, "", "## Session Notes", "", "## Decisions Made",
          "", "## Ideas", "- [" ++ t ++ "] " ++ C, "", "## Tasks", "", ""] := by
  have hsk := skeleton_split d hd
  have hens : DailyNotes.ensureSection "Ideas"
      (DailyNotes.createInitialContent d)
      = DailyNotes.createInitialContent d := by
    unfold DailyNotes.ensureSection
    rw [hsk]
    rw [if_pos (by
      rw [List.any_cons, matchesSectionHeading_hash1]
      decide)]
  have hfi : List.findIdx? (DailyNotes.matchesSectionHeading "Ideas")
      ["# " ++ d, "", "## Session Notes", "", "## Decisions Made", "",
        "## Ideas", "", "## Tasks", "", ""] = some 6 := by
    rw [List.findIdx?_cons, if_neg (by rw [matchesSectionHeading_hash1]; simp)]
    decide
  have hidx : DailyNotes.insertIndexOf "Ideas"
      ["# " ++ d, "", "## Session Notes", "", "## Decisions Made", "",
        "## Ideas", "", "## Tasks", "", ""] = 8 := by
    unfold DailyNotes.insertIndexOf
    rw [hfi]
    rfl
  rw [addEntry_none_eq]
  rw [hens, hsk, hidx]
  rfl

theorem addEntry_none_tasks (d t C : String) (hd : noNl d = true) :
    DailyNotes.addEntry d t none C "Tasks"
      = jsJoinNl ["# " ++ d, "", "## Session Notes", "", "## Decisions Made",
          "", "## Ideas", "", "## Tasks", "- [" ++ t ++ "] " ++ C, "", ""] := by
  have hsk := skeleton_split d hd
  have hens : DailyNotes.ensureSection "Tasks"
      (DailyNotes.createInitialContent d)
      = DailyNotes.createInitialContent d := by
    unfold DailyNotes.ensureSection
    rw [hsk]
    rw [if_pos (by
      rw [List.any_cons, matchesSectionHeading_hash1]
      decide)]
  have hfi : List.findIdx? (DailyNotes.matchesSectionHeading "Tasks")
      ["# " ++ d, "", "## Session Notes", "", "## Decisions Made", "",
        "## Ideas", "", "## Tasks", "", ""] = some 8 := by
    rw [List.findIdx?_cons, if_neg (by rw [matchesSectionHeading_hash1]; simp)]
    decide
  have hidx : DailyNotes.insertIndexOf "Tasks"
      ["# " ++ d, "", "## Session Notes", "", "## Decisions Made", "",
        "## Ideas", "", "## Tasks", "", ""] = 11 := by
    unfold DailyNotes.insertIndexOf
    rw [hfi]
    rfl
  rw [addEntry_none_eq]
  rw [hens, hsk, hidx]
  rfl

theorem isBlankLine_hash2 (S : String) : isBlankLine ("## " ++ S) = false := by
  rw [Bool.eq_false_iff]
  intro h
  have := trimCh_all_ws _ ((isBlankLine_iff_trimCh _).mp h) '#'
    (by
      rw [show ("## " ++ S).data = '#' :: '#' :: ' ' :: S.data from by
        rw [String.data_append]; rfl]
      simp)
  simp [isWsChar] at this

theorem jsTrimEnd_skeleton (d : String) :
    jsTrimEnd (DailyNotes.createInitialContent d)
      = ("# " ++ d)
        ++ "\n\n## Session Notes\n\n## Decisions Made\n\n## Ideas\n\n## Tasks" := by
  apply String.ext
  show ((("# " ++ d)
      ++ "\n\n## Session Notes\n\n## Decisions Made\n\n## Ideas\n\n## Tasks\n\n").data.reverse.dropWhile
        isWsChar).reverse
    = (("# " ++ d)
      ++ "\n\n## Session Notes\n\n## Decisions Made\n\n## Ideas\n\n## Tasks").data
  rw [String.data_append, String.data_append, List.reverse_append,
    List.dropWhile_append]
  rw [if_neg (by decide)]
  rw [show ("\n\n## Session Notes\n\n## Decisions Made\n\n## Ideas\n\n## Tasks\n\n"
        : String).data.reverse.dropWhile isWsChar
      = ("\n\n## Session Notes\n\n## Decisions Made\n\n## Ideas\n\n## Tasks"
        : String).data.reverse from by decide]
  rw [← List.reverse_append, List.reverse_reverse]
  simp [String.data_append]

theorem absent_file_join (d S : String) :
    jsTrimEnd (DailyNotes.createInitialContent d) ++ "\n\n## " ++ S ++ "\n"
      = jsJoinNl ["# " ++ d, "", "## Session Notes", "", "## Decisions Made",
          "", "## Ideas", "", "## Tasks", "", "## " ++ S, ""] := by
  rw [jsTrimEnd_skeleton d]
  apply String.ext
  show ((((("# " ++ d).data
      ++ ("\n\n## Session Notes\n\n## Decisions Made\n\n## Ideas\n\n## Tasks"
        : String).data)
      ++ ("\n\n## " : String).data) ++ S.data) ++ ("\n" : String).data)
    = ("# " ++ d).data ++ '\n' :: ('\n' :: (("## Session Notes" : String).data
        ++ '\n' :: ('\n' :: (("## Decisions Made" : String).data
        ++ '\n' :: ('\n' :: (("## Ideas" : String).data
        ++ '\n' :: ('\n' :: (("## Tasks" : String).data
        ++ '\n' :: ('\n' :: ('#' :: '#' :: ' '
          :: (S.data ++ ("\n" : String).data)))))))))))
  simp only [List.append_assoc]
  refine congrArg (fun l => ("# " ++ d).data ++ l) ?_
  rw [← List.append_assoc]
  rw [show ("\n\n## Session Notes\n\n## Decisions Made\n\n## Ideas\n\n## Tasks"
        : String).data ++ ("\n\n## " : String).data
      = '\n' :: '\n' :: (("## Session Notes" : String).data
        ++ '\n' :: ('\n' :: (("## Decisions Made" : String).data
        ++ '\n' :: ('\n' :: (("## Ideas" : String).data
        ++ '\n' :: ('\n' :: (("## Tasks" : String).data
        ++ ['\n', '\n', '#', '#', ' ']))))))) from by decide]
  simp [List.append_assoc]

theorem dropWhile_ws_eq_self_of_trim (cs : List Char) (h : trimCh cs = cs) :
    cs.dropWhile isWsChar = cs := by
  have hsub : (cs.dropWhile isWsChar).Sublist cs := List.dropWhile_sublist _
  apply hsub.eq_of_length
  have h2 : (trimCh cs).length ≤ (cs.dropWhile isWsChar).length := by
    unfold trimCh
    rw [List.length_reverse]
    calc ((cs.dropWhile isWsChar).reverse.dropWhile isWsChar).length
        ≤ (cs.dropWhile isWsChar).reverse.length :=
          (List.dropWhile_sublist _).length_le
      _ = (cs.dropWhile isWsChar).length := List.length_reverse _
  have h3 : (trimCh cs).length = cs.length := by rw [h]
  have h1 : (cs.dropWhile isWsChar).length ≤ cs.length := hsub.length_le
  omega

theorem matchesSectionHeading_self (S : String) (hS : jsTrim S = S) :
    DailyNotes.matchesSectionHeading S ("## " ++ S) = true := by
  show (if ((' ' :: S.data).dropWhile isWsChar).length
        = (' ' :: S.data).length then false
    else if S.data.isPrefixOf ((' ' :: S.data).dropWhile isWsChar) then
      (((' ' :: S.data).dropWhile isWsChar).drop S.data.length).all isWsChar
    else false) = true
  have hdw : (' ' :: S.data).dropWhile isWsChar = S.data := by
    rw [List.dropWhile_cons]
    rw [if_pos (show isWsChar ' ' = true from rfl)]
    exact dropWhile_ws_eq_self_of_trim S.data (by
      have := congrArg String.data hS
      simpa [jsTrim] using this)
  rw [hdw]
  rw [if_neg (by simp)]
  rw [if_pos (by rw [List.isPrefixOf_iff_prefix])]
  rw [List.drop_length]
  rfl

theorem addEntry_none_absent (d t C S : String) (hd : noNl d = true)
    (hS : jsTrim S = S) (hSnl : noNl S = true)
    (habsent : (jsSplitNl (DailyNotes.createInitialContent d)).any
      (DailyNotes.matchesSectionHeading S) = false) :
    DailyNotes.addEntry d t none C S
      = jsJoinNl ["# " ++ d, "", "## Session Notes", "", "## Decisions Made",
          "", "## Ideas", "", "## Tasks", "", "## " ++ S,
          "- [" ++ t ++ "] " ++ C, ""] := by
  rw [skeleton_split d hd] at habsent
  have hskel := List.any_eq_false.mp habsent
  have hens2 : DailyNotes.ensureSection S (DailyNotes.createInitialContent d)
      = jsJoinNl ["# " ++ d, "", "## Session Notes", "", "## Decisions Made",
          "", "## Ideas", "", "## Tasks", "", "## " ++ S, ""] := by
    unfold DailyNotes.ensureSection
    rw [if_neg (by
      rw [skeleton_split d hd, habsent]
      simp)]
    exact absent_file_join d S
  have hLSnl : ∀ l ∈ ["# " ++ d, "", "## Session Notes", "",
      "## Decisions Made", "", "## Ideas", "", "## Tasks", "", "## " ++ S,
      ""], noNl l = true := by
    intro l hl
    rcases List.mem_cons.mp hl with rfl | hl
    · exact noNl_data_append "# " d (by decide) hd
    · by_cases hl2 : l = "## " ++ S
      · rw [hl2]
        exact noNl_hash2 S hSnl
      · have hmem : l ∈ ["", "## Session Notes", "", "## Decisions Made", "",
            "## Ideas", "", "## Tasks", "", ""] := by
          rcases List.mem_cons.mp hl with rfl | hl
          · simp
          · rcases List.mem_cons.mp hl with rfl | hl
            · simp
            · rcases List.mem_cons.mp hl with rfl | hl
              · simp
              · rcases List.mem_cons.mp hl with rfl | hl
                · simp
                · rcases List.mem_cons.mp hl with rfl | hl
                  · simp
                  · rcases List.mem_cons.mp hl with rfl | hl
                    · simp
                    · rcases List.mem_cons.mp hl with rfl | hl
                      · simp
                      · rcases List.mem_cons.mp hl with rfl | hl
                        · simp
                        · rcases List.mem_cons.mp hl with rfl | hl
                          · simp
                          · rcases List.mem_cons.mp hl with rfl | hl
                            · exact absurd rfl hl2
                            · rcases List.mem_cons.mp hl with rfl | hl
                              · simp
                              · simp at hl
        exact (by decide : ∀ x ∈ ["", "## Session Notes", "",
          "## Decisions Made", "", "## Ideas", "", "## Tasks", "", ""],
          noNl x = true) l hmem
  have hsplitLS : jsSplitNl (jsJoinNl ["# " ++ d, "", "## Session Notes", "",
      "## Decisions Made", "", "## Ideas", "", "## Tasks", "", "## " ++ S,
      ""])
      = ["# " ++ d, "", "## Session Notes", "", "## Decisions Made", "",
          "## Ideas", "", "## Tasks", "", "## " ++ S, ""] :=
    jsSplitNl_jsJoinNl _ (by simp) hLSnl
  have hP10 : ∀ l ∈ ["# " ++ d, "", "## Session Notes", "",
      "## Decisions Made", "", "## Ideas", "", "## Tasks", ""],
      DailyNotes.matchesSectionHeading S l = false := by
    intro l hl
    rcases List.mem_cons.mp hl with rfl | hl
    · exact matchesSectionHeading_hash1 S d
    · have hmem : l ∈ ["", "## Session Notes", "", "## Decisions Made", "",
          "## Ideas", "", "## Tasks", "", ""] :=
        (by decide : ∀ x ∈ ["", "## Session Notes", "", "## Decisions Made",
          "", "## Ideas", "", "## Tasks", ""],
          x ∈ ["", "## Session Notes", "", "## Decisions Made", "",
            "## Ideas", "", "## Tasks", "", ""]) l hl
      have := hskel l (List.mem_cons_of_mem _ hmem)
      simpa using this
  have hfi2 : List.findIdx? (DailyNotes.matchesSectionHeading S)
      ["# " ++ d, "", "## Session Notes", "", "## Decisions Made", "",
        "## Ideas", "", "## Tasks", "", "## " ++ S, ""] = some 10 := by
    rw [show (["# " ++ d, "", "## Session Notes", "", "## Decisions Made", "",
        "## Ideas", "", "## Tasks", "", "## " ++ S, ""] : List String)
      = ["# " ++ d, "", "## Session Notes", "", "## Decisions Made", "",
          "## Ideas", "", "## Tasks", ""] ++ ("## " ++ S) :: [""] from rfl]
    rw [findIdx?_of_decomp _ _ _ _ hP10 (matchesSectionHeading_self S hS)]
    rfl
  have hidx2 : DailyNotes.insertIndexOf S
      ["# " ++ d, "", "## Session Notes", "", "## Decisions Made", "",
        "## Ideas", "", "## Tasks", "", "## " ++ S, ""] = 12 := by
    unfold DailyNotes.insertIndexOf
    rw [hfi2]
    rfl
  have hbb2 : DailyNotes.backBlanks
      ["# " ++ d, "", "## Session Notes", "", "## Decisions Made", "",
        "## Ideas", "", "## Tasks", "", "## " ++ S, ""] 12 = 11 := by
    show (if isBlankLine "" then DailyNotes.backBlanks
      ["# " ++ d, "", "## Session Notes", "", "## Decisions Made", "",
        "## Ideas", "", "## Tasks", "", "## " ++ S, ""] 11 else 12) = 11
    rw [show isBlankLine "" = true from rfl, if_pos rfl]
    show (if isBlankLine ("## " ++ S) then DailyNotes.backBlanks
      ["# " ++ d, "", "## Session Notes", "", "## Decisions Made", "",
        "## Ideas", "", "## Tasks", "", "## " ++ S, ""] 10 else 11) = 11
    rw [isBlankLine_hash2 S]
    simp
  rw [addEntry_none_eq, hens2, hsplitLS, hidx2, hbb2]
  rfl

/-- Claim C9: for every content string C and section name S, calling
addEntry(C, S) when no file exists for today creates today's file with the
default 4-section skeleton (Session Notes / Decisions Made / Ideas / Tasks)
and inserts the line "- [HH:MM] C" as the last entry of section S — shown
here for each of the four skeleton sections — and when S is absent from the
skeleton the heading "## S" is appended at the end of the document before
inserting. The date d and time t are the injected clock outputs
(formatDate/formatTime live in the missing src/utils/markdown.ts). -/
theorem c9_addEntry_fresh_day (d t C S : String) (hd : noNl d = true)
    (hS : jsTrim S = S) (hSnl : noNl S = true)
    (habsent : (jsSplitNl (DailyNotes.createInitialContent d)).any
      (DailyNotes.matchesSectionHeading S) = false) :
    DailyNotes.addEntry d t none C "Session Notes"
      = jsJoinNl ["# " ++ d, "", "## Session Notes", "- [" ++ t ++ "] " ++ C,
          "", "## Decisions Made", "", "## Ideas", "", "## Tasks", "", ""]
    ∧ DailyNotes.addEntry d t none C "Decisions Made"
      = jsJoinNl ["# " ++ d, "", "## Session Notes", "", "## Decisions Made",
          "- [" ++ t ++ "] " ++ C, "", "## Ideas", "", "## Tasks", "", ""]
    ∧ DailyNotes.addEntry d t none C "Ideas"
      = jsJoinNl ["# " ++ d, "", "## Session Notes", "", "## Decisions Made",
          "", "## Ideas", "- [" ++ t ++ "] " ++ C, "", "## Tasks", "", ""]
    ∧ DailyNotes.addEntry d t none C "Tasks"
      = jsJoinNl ["# " ++ d, "", "## Session Notes", "", "## Decisions Made",
          "", "## Ideas", "", "## Tasks", "- [" ++ t ++ "] " ++ C, "", ""]
    ∧ DailyNotes.addEntry d t none C S
      = jsJoinNl ["# " ++ d, "", "## Session Notes", "", "## Decisions Made",
          "", "## Ideas", "", "## Tasks", "", "## " ++ S,
          "- [" ++ t ++ "] " ++ C, ""] :=
  ⟨addEntry_none_sessionNotes d t C hd,
   addEntry_none_decisionsMade d t C hd,
   addEntry_none_ideas d t C hd,
   addEntry_none_tasks d t C hd,
   addEntry_none_absent d t C S hd hS hSnl habsent⟩

theorem c9_addEntry_fresh_day_witness :
    (noNl "2026-01-30" = true ∧ jsTrim "Custom Sec" = "Custom Sec"
      ∧ noNl "Custom Sec" = true
      ∧ (jsSplitNl (DailyNotes.createInitialContent "2026-01-30")).any
          (DailyNotes.matchesSectionHeading "Custom Sec") = false)
    ∧ (DailyNotes.addEntry "2026-01-30" "10:30" none "Shipped v1"
          "Session Notes"
        = jsJoinNl ["# 2026-01-30", "", "## Session Notes",
            "- [10:30] Shipped v1", "", "## Decisions Made", "", "## Ideas",
            "", "## Tasks", "", ""]
      ∧ DailyNotes.addEntry "2026-01-30" "10:30" none "Shipped v1"
          "Decisions Made"
        = jsJoinNl ["# 2026-01-30", "", "## Session Notes", "",
            "## Decisions Made", "- [10:30] Shipped v1", "", "## Ideas", "",
            "## Tasks", "", ""]
      ∧ DailyNotes.addEntry "2026-01-30" "10:30" none "Shipped v1" "Ideas"
        = jsJoinNl ["# 2026-01-30", "", "## Session Notes", "",
            "## Decisions Made", "", "## Ideas", "- [10:30] Shipped v1", "",
            "## Tasks", "", ""]
      ∧ DailyNotes.addEntry "2026-01-30" "10:30" none "Shipped v1" "Tasks"
        = jsJoinNl ["# 2026-01-30", "", "## Session Notes", "",
            "## Decisions Made", "", "## Ideas", "", "## Tasks",
            "- [10:30] Shipped v1", "", ""]
      ∧ DailyNotes.addEntry "2026-01-30" "10:30" none "Shipped v1"
          "Custom Sec"
        = jsJoinNl ["# 2026-01-30", "", "## Session Notes", "",
            "## Decisions Made", "", "## Ideas", "", "## Tasks", "",
            "## Custom Sec", "- [10:30] Shipped v1", ""]) :=
  ⟨⟨by decide, by decide, by decide, by decide⟩,
   c9_addEntry_fresh_day "2026-01-30" "10:30" "Shipped v1" "Custom Sec"
     (by decide) (by decide) (by decide) (by decide)⟩
